import Mathlib

/-!
Verification development for the PySPL repository (a small SPL-style query
engine over in-memory records).

The Python sources are shallowly embedded: Python `dict` records become
insertion-ordered association lists, Python dynamic values become the
`Value` inductive, machine floats become exact rationals (with an explicit
symbolic constructor for the irrational square roots produced by the
standard-deviation aggregations; the real-number meaning of those roots is
expressed with `Real.sqrt` in the theorem statements), and every string
routine from the source is re-implemented over `List Char` so that all
definitions compute by `rfl`/`decide`.

Each definition carries a comment naming the Python function it embeds.
-/

namespace PySPL

/-- Dynamic Python value as stored in PySPL records.
`null` models Python `None`; `rat` models a float by its exact rational
value; `sqrtIrr q` is an exact stand-in for the float `math.sqrt(q)` in the
case where that square root is irrational (the stdev aggregations produce
it; rational roots are normalised to `rat`).  `vlist`/`vdict` model Python
lists and nested dicts. -/
inductive Value where
  | null
  | bool (b : Bool)
  | int (n : Int)
  | rat (q : ℚ)
  | str (s : String)
  | sqrtIrr (q : ℚ)
  | vlist (vs : List Value)
  | vdict (d : List (String × Value))

/-- A record: Python's insertion-ordered `dict` as an association list with
unique keys (all constructors below preserve key uniqueness the way `dict`
does). -/
abbrev Record := List (String × Value)

/-! ## Kernel-reducible rational arithmetic

The Batteries `Rat` operations (`+`, `*`, `-`, `/`, `<`) are `@[irreducible]`,
which blocks `decide`/`rfl` evaluation; the following equivalents are built
from `mkRat` (which reduces) and are proved equal to the standard operations
where the theorems need it. -/

def intToRat (n : Int) : ℚ := mkRat n 1

def qAdd (a b : ℚ) : ℚ := mkRat (a.num * b.den + b.num * a.den) (a.den * b.den)

def qSub (a b : ℚ) : ℚ := mkRat (a.num * b.den - b.num * a.den) (a.den * b.den)

def qMul (a b : ℚ) : ℚ := mkRat (a.num * b.num) (a.den * b.den)

/-- Exact division (callers rule out the zero divisor Python would raise on). -/
def qDiv (a b : ℚ) : ℚ :=
  mkRat (if b.num < 0 then -(a.num * (b.den : Int)) else a.num * (b.den : Int))
    (a.den * b.num.natAbs)

def qLtB (a b : ℚ) : Bool := a.num * (b.den : Int) < b.num * (a.den : Int)

def qEqB (a b : ℚ) : Bool := a.num == b.num && a.den == b.den

/-! ## Record (Python dict) primitives -/

/-- `record.get(k)` / `k in record`, returning `none` when the key is absent. -/
def Record.get (r : Record) (k : String) : Option Value :=
  match r with
  | [] => none
  | (k₁, v₁) :: rest => if k₁ = k then some v₁ else Record.get rest k

/-- `record.get(k, None)`: Python collapses "absent" and "stored `None`". -/
def Record.pyGet (r : Record) (k : String) : Value :=
  (r.get k).getD .null

/-- `k in record`. -/
def Record.hasKey (r : Record) (k : String) : Bool :=
  match r with
  | [] => false
  | (k₁, _) :: rest => k₁ = k || Record.hasKey rest k

/-- `record[k] = v`: overwrite in place when the key exists (keeping its
position, as `dict` does), otherwise append. -/
def dictInsert (r : Record) (k : String) (v : Value) : Record :=
  match r with
  | [] => [(k, v)]
  | (k₁, v₁) :: rest =>
    if k₁ = k then (k₁, v) :: rest else (k₁, v₁) :: dictInsert rest k v

/-- Insert every pair of `kvs` into `r` in order (Python loop of
`new_record[name] = value`). -/
def updateRecord (r : Record) (kvs : List (String × Value)) : Record :=
  kvs.foldl (fun acc kv => dictInsert acc kv.1 kv.2) r

/-- `list(record.keys())`. -/
def recordKeys (r : Record) : List String := r.map (·.1)

/-! ## Python `==` (also used for dict/group keys) -/

mutual

/-- Python `==` on values: numeric kinds (bool counts as a number, `True == 1`)
compare by value, lists elementwise, dicts entrywise.  (Python's dict `==`
ignores insertion order; records built by this development always compare
with identical orders, so entrywise comparison is used.)  `sqrtIrr` values
are irrational by construction, hence equal only to an identical root. -/
def pyEq : Value → Value → Bool
  | .null, .null => true
  | .bool a, .bool b => a == b
  | .bool a, .int b => (if a then (1 : Int) else 0) == b
  | .int a, .bool b => a == (if b then (1 : Int) else 0)
  | .bool a, .rat b => qEqB (intToRat (if a then 1 else 0)) b
  | .rat a, .bool b => qEqB a (intToRat (if b then 1 else 0))
  | .int a, .int b => a == b
  | .int a, .rat b => qEqB (intToRat a) b
  | .rat a, .int b => qEqB a (intToRat b)
  | .rat a, .rat b => qEqB a b
  | .str a, .str b => a == b
  | .sqrtIrr a, .sqrtIrr b => qEqB a b
  | .vlist a, .vlist b => pyEqList a b
  | .vdict a, .vdict b => pyEqDict a b
  | _, _ => false

def pyEqList : List Value → List Value → Bool
  | [], [] => true
  | a :: as, b :: bs => pyEq a b && pyEqList as bs
  | _, _ => false

def pyEqDict : List (String × Value) → List (String × Value) → Bool
  | [], [] => true
  | (k₁, v₁) :: as, (k₂, v₂) :: bs => k₁ == k₂ && pyEq v₁ v₂ && pyEqDict as bs
  | _, _ => false

end

/-! ## Character-level string utilities (Python `str` methods) -/

/-- `s.strip()` on a character list. -/
def trimChars (l : List Char) : List Char :=
  ((l.dropWhile Char.isWhitespace).reverse.dropWhile Char.isWhitespace).reverse

/-- `s.strip()`. -/
def strTrim (s : String) : String := ⟨trimChars s.data⟩

/-- `s.rstrip()` on a character list. -/
def rstripChars (l : List Char) : List Char :=
  (l.reverse.dropWhile Char.isWhitespace).reverse

/-- Is `needle` a prefix of `hay` (character-exact)? -/
def startsChars : List Char → List Char → Bool
  | [], _ => true
  | _ :: _, [] => false
  | a :: as, b :: bs => a == b && startsChars as bs

/-- Python's `needle in hay` substring test. -/
def containsChars (hay needle : List Char) : Bool :=
  match hay with
  | [] => startsChars needle []
  | _ :: rest => startsChars needle hay || containsChars rest needle

/-- `hay.split(needle, 1)`: split on the first occurrence of `needle`,
returning the parts before and after it; `none` when absent. -/
def splitFirstChars (needle : List Char) : List Char → Option (List Char × List Char)
  | [] => if needle.isEmpty then some ([], []) else none
  | c :: rest =>
    if startsChars needle (c :: rest) && !needle.isEmpty then
      some ([], (c :: rest).drop needle.length)
    else
      (splitFirstChars needle rest).map (fun p => (c :: p.1, p.2))

/-- Fuel-driven core of `countReplaceChars`/`replaceChars` (each step
consumes at least one character, so `s.length` fuel always suffices; fuel
keeps the recursion structural, hence kernel-reducible). -/
def countReplaceFuel (needle rep : List Char) : Nat → List Char → Nat × List Char
  | 0, s => (0, s)
  | _ + 1, [] => (0, [])
  | fuel + 1, c :: rest =>
    if startsChars needle (c :: rest) && !needle.isEmpty then
      let r := countReplaceFuel needle rep fuel ((c :: rest).drop needle.length)
      (r.1 + 1, rep ++ r.2)
    else
      let r := countReplaceFuel needle rep fuel rest
      (r.1, c :: r.2)

/-- `s.count(needle)` together with `s.replace(needle, ' ' * len(needle))`
(non-overlapping, left to right), as used by `parse_multiple_conditions`
to count comparison operators without double-counting `=` inside `>=`. -/
def countReplaceChars (needle : List Char) (s : List Char) : Nat × List Char :=
  countReplaceFuel needle (needle.map (fun _ => ' ')) s.length s

/-- `s.replace(needle, rep)`. -/
def replaceChars (needle rep : List Char) (s : List Char) : List Char :=
  (countReplaceFuel needle rep s.length s).2

/-- `s.split(sep)` for a single separator character (Python `str.split(',')`:
the result always has at least one part, and empty parts are kept). -/
def splitOnChar (sep : Char) : List Char → List (List Char)
  | [] => [[]]
  | c :: rest =>
    match splitOnChar sep rest with
    | [] => [[c]]
    | h :: t => if c == sep then [] :: h :: t else (c :: h) :: t

/-- Case-insensitive prefix test: is the (lowercase) keyword `kw` a prefix of
`l` once `l` is lowercased? -/
def ciStartsChars : List Char → List Char → Bool
  | [], _ => true
  | _ :: _, [] => false
  | k :: ks, c :: cs => k == c.toLower && ciStartsChars ks cs

/-- One attempt to match the tail of the regex `\s+KW\s+` (case-insensitive)
given that one whitespace character was already consumed; `rest` is the text
after that character.  Returns the text after the final greedy `\s+` on
success. -/
def matchKwTail (kw : List Char) (rest : List Char) : Option (List Char) :=
  let r1 := rest.dropWhile Char.isWhitespace
  if ciStartsChars kw r1 then
    let r2 := r1.drop kw.length
    match r2 with
    | [] => none
    | c :: _ => if c.isWhitespace then some (r2.dropWhile Char.isWhitespace) else none
  else none

/-- `re.search(r'\s+KW\s+', s, re.IGNORECASE)` with the match's surroundings:
returns `(s[:match.start()], s[match.end():])` for the leftmost match. -/
def findKwSplitAux (kw : List Char) (acc : List Char) :
    List Char → Option (List Char × List Char)
  | [] => none
  | c :: rest =>
    if c.isWhitespace then
      match matchKwTail kw rest with
      | some after => some (acc.reverse, after)
      | none => findKwSplitAux kw (c :: acc) rest
    else findKwSplitAux kw (c :: acc) rest

/-- Leftmost `\s+KW\s+` split of a string (used for the stats `by` clause). -/
def findKwSplit (kw : List Char) (s : List Char) : Option (List Char × List Char) :=
  findKwSplitAux kw [] s

/-- Fuel-driven core of `splitKw` (each recursive step consumes at least one
character, so `s.length` fuel suffices; fuel keeps the recursion structural,
hence kernel-reducible). -/
def splitKwFuel (kw : List Char) : Nat → List Char → List Char → List (List Char)
  | 0, cur, l => [cur ++ l]
  | _ + 1, cur, [] => [cur]
  | fuel + 1, cur, c :: rest =>
    if c.isWhitespace then
      match matchKwTail kw rest with
      | some after => cur :: splitKwFuel kw fuel [] after
      | none => splitKwFuel kw fuel (cur ++ [c]) rest
    else splitKwFuel kw fuel (cur ++ [c]) rest

/-- `re.split(r'\s+KW\s+', s, flags=re.IGNORECASE)` (used for `OR`). -/
def splitKw (kw : List Char) (s : List Char) : List (List Char) :=
  splitKwFuel kw s.length [] s

/-- Python `\w` (ASCII identifier characters; the sources only use ASCII). -/
def isWordChar (c : Char) : Bool := c.isAlphanum || c == '_'

/-- `re.match(r'^(\w+)\s*(.*)', part)`: leading word and the remainder after
optional whitespace. -/
def splitLeadingWord (s : String) : Option (String × String) :=
  let w := s.data.takeWhile isWordChar
  if w.isEmpty then none
  else some (⟨w⟩, ⟨(s.data.drop w.length).dropWhile Char.isWhitespace⟩)

/-- `s.lower()`. -/
def strLower (s : String) : String := ⟨s.data.map Char.toLower⟩

/-! ## Numeric literals: Python `int(s)` and `float(s)` -/

/-- Digits of a natural number, most significant first (kernel-reducible
replacement for `Nat.repr`). -/
def natDigits (fuel n : Nat) : List Char :=
  match fuel with
  | 0 => []
  | fuel + 1 =>
    if n < 10 then [Char.ofNat (48 + n)]
    else natDigits fuel (n / 10) ++ [Char.ofNat (48 + n % 10)]

/-- `str(n)` for a Python int. -/
def intToStr (n : Int) : String :=
  if n < 0 then ⟨'-' :: natDigits n.natAbs n.natAbs⟩ else ⟨natDigits n.natAbs n.natAbs⟩

/-- Value of a nonempty all-digit character list. -/
def digitsVal? (l : List Char) : Option Nat :=
  if !l.isEmpty && l.all Char.isDigit then
    some (l.foldl (fun acc c => acc * 10 + (c.toNat - 48)) 0)
  else none

/-- Python `int(s)`: strip, optional sign, decimal digits. -/
def pyParseInt (s : String) : Option Int :=
  match trimChars s.data with
  | '-' :: rest => (digitsVal? rest).map (fun n => -(n : Int))
  | '+' :: rest => (digitsVal? rest).map (fun n => (n : Int))
  | rest => (digitsVal? rest).map (fun n => (n : Int))

/-- Unsigned decimal syntax `digits [. digits]` with at least one digit,
returned as a numerator/denominator pair. -/
def decimalVal? (l : List Char) : Option (Nat × Nat) :=
  let ip := l.takeWhile Char.isDigit
  let rest := l.drop ip.length
  match rest with
  | [] => (digitsVal? ip).map (fun n => (n, 1))
  | '.' :: fp =>
    if fp.all Char.isDigit && !(ip.isEmpty && fp.isEmpty) then
      some ((ip.foldl (fun acc c => acc * 10 + (c.toNat - 48)) 0) * 10 ^ fp.length +
        fp.foldl (fun acc c => acc * 10 + (c.toNat - 48)) 0, 10 ^ fp.length)
    else none
  | _ => none

/-- Python `float(s)` restricted to plain decimal syntax (the sources never
feed it exponent/`inf` forms). -/
def pyParseFloat (s : String) : Option ℚ :=
  match trimChars s.data with
  | '-' :: rest => (decimalVal? rest).map (fun p => mkRat (-(p.1 : Int)) p.2)
  | '+' :: rest => (decimalVal? rest).map (fun p => mkRat p.1 p.2)
  | rest => (decimalVal? rest).map (fun p => mkRat p.1 p.2)

/-- Count and strip factors `p` from `n` (fuel-driven). -/
def stripFac (p : Nat) : Nat → Nat → Nat × Nat
  | 0, n => (0, n)
  | fuel + 1, n =>
    if n % p = 0 && n ≠ 0 && p ≥ 2 then
      let r := stripFac p fuel (n / p)
      (r.1 + 1, r.2)
    else (0, n)

/-- `str(q)` for a Python float, idealised: exact decimal expansion when the
denominator divides a power of ten (Python's shortest-roundtrip printing
agrees on such values), a fraction rendering otherwise (unexercised by any
claim). -/
def ratToPyStr (q : ℚ) : String :=
  let sign := if q.num < 0 then "-" else ""
  let n := q.num.natAbs
  if q.den = 1 then sign ++ ⟨natDigits n n⟩ ++ ".0"
  else
    let r2 := stripFac 2 q.den q.den
    let r5 := stripFac 5 r2.2 r2.2
    if r5.2 = 1 then
      let k := max r2.1 r5.1
      let scaled := n * (10 ^ k / q.den)
      let ip := scaled / 10 ^ k
      let fp := scaled % 10 ^ k
      let fpd := natDigits fp fp
      sign ++ ⟨natDigits ip ip⟩ ++ "." ++ ⟨List.replicate (k - fpd.length) '0'⟩ ++ ⟨fpd⟩
    else
      sign ++ ⟨natDigits n n⟩ ++ "/" ++ ⟨natDigits q.den q.den⟩

/-! ## Python `str()` / `repr()` rendering -/

mutual

/-- Python `str(value)` (floats idealised per `ratToPyStr`; `sqrtIrr` uses a
symbolic rendering, unexercised by any claim). -/
def pyStr : Value → String
  | .null => "None"
  | .bool b => if b then "True" else "False"
  | .int n => intToStr n
  | .rat q => ratToPyStr q
  | .str s => s
  | .sqrtIrr q => "sqrt(" ++ ratToPyStr q ++ ")"
  | .vlist vs => "[" ++ pyReprJoin vs ++ "]"
  | .vdict d => "\x7b" ++ pyReprDictJoin d ++ "\x7d"

/-- Python `repr(value)` as used inside list/dict rendering. -/
def pyRepr : Value → String
  | .str s => "'" ++ s ++ "'"
  | .null => "None"
  | .bool b => if b then "True" else "False"
  | .int n => intToStr n
  | .rat q => ratToPyStr q
  | .sqrtIrr q => "sqrt(" ++ ratToPyStr q ++ ")"
  | .vlist vs => "[" ++ pyReprJoin vs ++ "]"
  | .vdict d => "\x7b" ++ pyReprDictJoin d ++ "\x7d"

def pyReprJoin : List Value → String
  | [] => ""
  | [v] => pyRepr v
  | v :: rest => pyRepr v ++ ", " ++ pyReprJoin rest

def pyReprDictJoin : List (String × Value) → String
  | [] => ""
  | [(k, v)] => "'" ++ k ++ "': " ++ pyRepr v
  | (k, v) :: rest => "'" ++ k ++ "': " ++ pyRepr v ++ ", " ++ pyReprDictJoin rest

end

/-! ## Comparison semantics (`evaluate_condition`'s operator table) -/

/-- The six comparison operators, in the priority order of
`utils.evaluate_condition` (`!=`, `>=`, `<=`, `>`, `<`, `=`). -/
inductive CmpOp where
  | ne | ge | le | gt | lt | eq
deriving DecidableEq

def opChars : CmpOp → List Char
  | .ne => ['!', '=']
  | .ge => ['>', '=']
  | .le => ['<', '=']
  | .gt => ['>']
  | .lt => ['<']
  | .eq => ['=']

def condOps : List CmpOp := [.ne, .ge, .le, .gt, .lt, .eq]

/-- Is the value a Python number (`isinstance(v, (int, float))`; Python bools
are ints, stdev roots are floats)? -/
def numericV : Value → Bool
  | .bool _ | .int _ | .rat _ | .sqrtIrr _ => true
  | _ => false

/-- Numeric content: `Sum.inl q` is the exact rational `q`, `Sum.inr r` the
(irrational) root `√r`. -/
def asNum : Value → Option (ℚ ⊕ ℚ)
  | .bool b => some (.inl (intToRat (if b then 1 else 0)))
  | .int n => some (.inl (intToRat n))
  | .rat q => some (.inl q)
  | .sqrtIrr q => some (.inr q)
  | _ => none

/-- `<` on numeric contents (`√r` is irrational and positive by the
`sqrtIrr` construction invariant). -/
def numLtB : (ℚ ⊕ ℚ) → (ℚ ⊕ ℚ) → Bool
  | .inl a, .inl b => qLtB a b
  | .inr a, .inr b => qLtB a b
  | .inl a, .inr b => a.num < 0 || qLtB (qMul a a) b
  | .inr a, .inl b => 0 < b.num && qLtB a (qMul b b)

/-- The strict/loose family of Python comparisons on numbers. -/
def numCmpB : CmpOp → (ℚ ⊕ ℚ) → (ℚ ⊕ ℚ) → Bool
  | .lt, x, y => numLtB x y
  | .le, x, y => !numLtB y x
  | .gt, x, y => numLtB y x
  | .ge, x, y => !numLtB x y
  | _, _, _ => false

/-- Python string comparison (lexicographic by code point). -/
def strCmpB : CmpOp → String → String → Bool
  | .eq, a, b => a == b
  | .ne, a, b => a != b
  | .lt, a, b => decide (a < b)
  | .le, a, b => !decide (b < a)
  | .gt, a, b => decide (b < a)
  | .ge, a, b => !decide (a < b)

/-- Apply one Python comparison operator; `none` models a `TypeError`
(e.g. ordering a string against a number, or anything against `None`).
Python's elementwise list ordering is also modelled as an error, a corner
no claim exercises. -/
def pyCompare (op : CmpOp) (a b : Value) : Option Bool :=
  match op with
  | .eq => some (pyEq a b)
  | .ne => some (!pyEq a b)
  | _ =>
    match asNum a, asNum b with
    | some x, some y => some (numCmpB op x y)
    | _, _ =>
      match a, b with
      | .str sa, .str sb => some (strCmpB op sa sb)
      | _, _ => none

/-! ## `utils.py` -/

/-- The `startswith`/`endswith` quoted-literal test shared by `parse_value`,
`evaluate_simple_value` and `evaluate_expression` (Python's slicing makes a
single quote character count as quoted, with empty content). -/
def isQuotedLiteral (v : List Char) : Bool :=
  match v with
  | c :: _ => (c == '"' && v.getLast? == some '"') ||
              (c == '\'' && v.getLast? == some '\'')
  | [] => false

/-- `utils.parse_value`: quoted string, boolean, null, number, else string. -/
def parse_value (value_str : String) : Value :=
  let v := trimChars value_str.data
  if isQuotedLiteral v then .str ⟨(v.drop 1).dropLast⟩
  else
    let lo : String := ⟨v.map Char.toLower⟩
    if lo == "true" then .bool true
    else if lo == "false" then .bool false
    else if lo == "null" || lo == "none" then .null
    else if containsChars v ['.'] then
      match pyParseFloat ⟨v⟩ with
      | some q => .rat q
      | none => .str ⟨v⟩
    else
      match pyParseInt ⟨v⟩ with
      | some n => .int n
      | none => .str ⟨v⟩

/-- Walk the remaining dot-path segments (`utils.safe_get`'s loop body:
only dict values can be descended into; anything else yields the default). -/
def walkPath : Value → List String → Value
  | v, [] => v
  | .vdict d, k :: rest => walkPath (Record.pyGet d k) rest
  | _, _ :: _ => .null

/-- `utils.safe_get(record, path)` with default `None` (collapsed to
`Value.null`, exactly as Python's `None` default does). -/
def safe_get (r : Record) (path : String) : Value :=
  walkPath (.vdict r) ((splitOnChar '.' path.data).map (fun l => (⟨l⟩ : String)))

def valueIsNull : Value → Bool
  | .null => true
  | _ => false

/-- `evaluate_condition`'s generic comparison path: field-reference detection,
literal parsing, `None` exclusion, numeric coercion, comparison with string
fallback on `TypeError`. -/
def evalCmpGeneral (record : Record) (op : CmpOp) (field_value : Value)
    (value_str : String) : Bool :=
  let startsQuote := match value_str.data with
    | c :: _ => c == '"' || c == '\''
    | [] => false
  let isFieldRef := !startsQuote && record.hasKey value_str
  let expected := if isFieldRef then record.pyGet value_str else parse_value value_str
  if valueIsNull field_value then false
  else
    let coerce : Value → Value := fun v =>
      let s := pyStr v
      if containsChars s.data ['.'] then
        match pyParseFloat s with
        | some q => .rat q
        | none => v
      else
        match pyParseInt s with
        | some n => .int n
        | none => v
    let fv := if numericV expected && !numericV field_value then coerce field_value
      else field_value
    let ev := if numericV field_value && !numericV expected then coerce expected
      else expected
    match pyCompare op fv ev with
    | some b => b
    | none => strCmpB op (pyStr fv) (pyStr ev)

/-- `utils.evaluate_condition(record, condition)`: trims, handles the `*`
match-all, finds the first operator present (priority order), splits once on
it, handles the `*` existence/absence tests for `=`/`!=`, then compares. -/
def evaluate_condition (record : Record) (condition : String) : Bool :=
  let c := strTrim condition
  if c == "*" then true
  else
    match condOps.find? (fun op => containsChars c.data (opChars op)) with
    | none => false
    | some op =>
      match splitFirstChars (opChars op) c.data with
      | none => false
      | some (before, after) =>
        let field := strTrim ⟨before⟩
        let value_str := strTrim ⟨after⟩
        let field_value := safe_get record field
        if value_str == "*" then
          match op with
          | .eq => !valueIsNull field_value
          | .ne => valueIsNull field_value
          | _ => evalCmpGeneral record op field_value value_str
        else evalCmpGeneral record op field_value value_str

/-! ## `utils.parse_multiple_conditions` -/

def pmcOps : List (List Char) := [['!', '='], ['>', '='], ['<', '='], ['>'], ['<'], ['=']]

/-- `any(op in token for op in comparison_operators)`. -/
def hasOpChars (l : List Char) : Bool := pmcOps.any (containsChars l)

/-- Total number of operator occurrences, longer operators masked out first
(the `temp_str.replace` trick of the source). -/
def countAllOps (s : List Char) : Nat :=
  (pmcOps.foldl (fun (acc : Nat × List Char) op =>
    let r := countReplaceChars op acc.2
    (acc.1 + r.1, r.2)) (0, s)).1

/-- `conditions[-1] += ' ' + token`. -/
def appendToLastTok (acc : List (List Char)) (tok : List Char) : List (List Char) :=
  match acc with
  | [] => [tok]
  | [last] => [last ++ ' ' :: tok]
  | x :: rest => x :: appendToLastTok rest tok

/-- `conditions[-1]`. -/
def lastTok (acc : List (List Char)) : List Char :=
  match acc with
  | [] => []
  | [x] => x
  | _ :: rest => lastTok rest

/-- The quote-aware space-splitting scan of `parse_multiple_conditions`
(`prev` is the previously seen character for the backslash look-back). -/
def pmcScan (prev : Option Char) (inQ : Option Char) (cur : List Char)
    (acc : List (List Char)) : List Char → List (List Char)
  | [] =>
    if cur.isEmpty then acc
    else if hasOpChars cur || acc.isEmpty then acc ++ [cur]
    else appendToLastTok acc cur
  | c :: rest =>
    let noEscape := match prev with
      | none => true
      | some p => p != '\\'
    let inQ2 := if (c == '"' || c == '\'') && noEscape then
        match inQ with
        | none => some c
        | some q => if c == q then none else some q
      else inQ
    if c == ' ' && inQ2.isNone then
      if cur.isEmpty then pmcScan (some c) inQ2 [] acc rest
      else if hasOpChars cur then pmcScan (some c) inQ2 [] (acc ++ [cur]) rest
      else if !acc.isEmpty && !hasOpChars (lastTok acc) then
        pmcScan (some c) inQ2 [] (appendToLastTok acc cur) rest
      else pmcScan (some c) inQ2 [] (acc ++ [cur]) rest
    else pmcScan (some c) inQ2 (cur ++ [c]) acc rest

/-- `utils.parse_multiple_conditions`: a single operator occurrence means one
condition as-is; otherwise space-split with quote awareness and rejoining of
operator-less tokens, dropping blank parts. -/
def parse_multiple_conditions (condition_str : String) : List String :=
  if countAllOps condition_str.data == 1 then [strTrim condition_str]
  else
    ((pmcScan none none [] [] condition_str.data).map
      (fun l => (⟨l⟩ : String))).filter (fun c => strTrim c ≠ "")

/-! ## `commands/search.py` -/

/-- Truthiness of `re.search(r'\s+OR\s+', args, re.IGNORECASE)`. -/
def hasOrKeyword (s : String) : Bool := (findKwSplit ['o', 'r'] s.data).isSome

/-- `execute_search_with_or`: strip outer parentheses, split on `OR`, keep a
record as soon as one alternative (itself paren-stripped) matches. -/
def execute_search_with_or (data : List Record) (args : String) : List Record :=
  let a1 := strTrim args
  let a2 := if a1.data.head? == some '(' && a1.data.getLast? == some ')' then
      strTrim ⟨(a1.data.drop 1).dropLast⟩
    else a1
  let or_parts := (splitKw ['o', 'r'] a2.data).map (fun l => (⟨l⟩ : String))
  data.filter (fun r => or_parts.any (fun cond =>
    let c := strTrim cond
    let c2 := if c.data.head? == some '(' && c.data.getLast? == some ')' then
        strTrim ⟨(c.data.drop 1).dropLast⟩
      else c
    evaluate_condition r c2))

/-- `execute_search(data, args)`. -/
def execute_search (data : List Record) (args : String) : List Record :=
  if args == "" || args == "*" then data
  else if hasOrKeyword args then execute_search_with_or data args
  else
    let conditions := parse_multiple_conditions args
    data.filter (fun r => conditions.all (fun c => evaluate_condition r c))

/-- The per-record predicate of the Search/Where stage (the condition
evaluator of spec section 4.2: empty/`*` matches everything, `OR` splits into
alternatives, otherwise all space-split conditions must hold). -/
def condition_matches (args : String) (r : Record) : Bool :=
  if args == "" || args == "*" then true
  else if hasOrKeyword args then
    let a1 := strTrim args
    let a2 := if a1.data.head? == some '(' && a1.data.getLast? == some ')' then
        strTrim ⟨(a1.data.drop 1).dropLast⟩
      else a1
    ((splitKw ['o', 'r'] a2.data).map (fun l => (⟨l⟩ : String))).any (fun cond =>
      let c := strTrim cond
      let c2 := if c.data.head? == some '(' && c.data.getLast? == some ')' then
          strTrim ⟨(c.data.drop 1).dropLast⟩
        else c
      evaluate_condition r c2)
  else (parse_multiple_conditions args).all (fun c => evaluate_condition r c)

/-! ## `commands/stats.py`: aggregation-spec parsing -/

/-- The aggregation functions of `get_aggregation_function`. -/
inductive AggFunc where
  | count | sum | avg | min | max | stdev | stdevs | values | list | dc
deriving DecidableEq

/-- `get_aggregation_function(func_name)` (the name table, with aliases
`mean`, `stdevp`, `distinct_count`). -/
def get_aggregation_function (name : String) : Option AggFunc :=
  if name == "count" then some .count
  else if name == "sum" then some .sum
  else if name == "avg" then some .avg
  else if name == "mean" then some .avg
  else if name == "min" then some .min
  else if name == "max" then some .max
  else if name == "stdev" then some .stdev
  else if name == "stdevp" then some .stdev
  else if name == "stdevs" then some .stdevs
  else if name == "values" then some .values
  else if name == "list" then some .list
  else if name == "dc" then some .dc
  else if name == "distinct_count" then some .dc
  else none

/-- One parsed aggregation: (result field name, function, source field:
`none` for the bare form, `some f` for the parenthesised form). -/
abbrev AggSpec := String × AggFunc × Option String

/-- `_parse_single_aggregation(spec, alias)`. -/
def parse_single_aggregation (spec0 : String) (alias0 : Option String) : Option AggSpec :=
  let spec := strTrim spec0
  if spec == "" then none
  else
    let p := if containsChars (spec.data.map Char.toLower) [' ', 'a', 's', ' '] then
        match findKwSplit ['a', 's'] spec.data with
        | some (b, a) => (strTrim ⟨b⟩, some (strTrim ⟨a⟩))
        | none => (spec, alias0)
      else (spec, alias0)
    let spec2 := p.1
    let aliasN := p.2
    let w := spec2.data.takeWhile isWordChar
    let restw := (spec2.data.drop w.length).dropWhile Char.isWhitespace
    let parenForm : Option (String × String) :=
      if w.isEmpty then none
      else match restw with
        | '(' :: r1 =>
          let inner := r1.takeWhile (fun c => c != ')')
          if (r1.drop inner.length).head? == some ')' then
            some (⟨w.map Char.toLower⟩, strTrim ⟨inner⟩)
          else none
        | _ => none
    match parenForm with
    | some (func_name, field_name) =>
      match get_aggregation_function func_name with
      | some f =>
        let result_name := aliasN.getD
          (if field_name == "" then func_name
           else func_name ++ "(" ++ field_name ++ ")")
        some (result_name, f, some field_name)
      | none => none
    | none =>
      let func_name := strLower spec2
      match get_aggregation_function func_name with
      | some f => some (aliasN.getD func_name, f, none)
      | none => none

/-- `_tokenize_aggregations`: space/comma separation outside parentheses. -/
def tokAggAux (depth : Int) (cur : List Char) (acc : List (List Char)) :
    List Char → List (List Char)
  | [] => if cur.isEmpty then acc else acc ++ [cur]
  | c :: rest =>
    if c == '(' then tokAggAux (depth + 1) (cur ++ [c]) acc rest
    else if c == ')' then tokAggAux (depth - 1) (cur ++ [c]) acc rest
    else if (c == ' ' || c == ',') && depth == 0 then
      tokAggAux depth [] (if cur.isEmpty then acc else acc ++ [cur]) rest
    else tokAggAux depth (cur ++ [c]) acc rest

def tokenize_aggregations (s : String) : List String :=
  (tokAggAux 0 [] [] s.data).map (fun l => (⟨l⟩ : String))

/-- `split_by_comma`: comma split outside parentheses (keeps empty interior
parts, drops a trailing empty part). -/
def splitCommaDepth (depth : Int) (cur : List Char) (acc : List (List Char)) :
    List Char → List (List Char)
  | [] => if cur.isEmpty then acc else acc ++ [cur]
  | c :: rest =>
    if c == ',' && depth == 0 then splitCommaDepth depth [] (acc ++ [cur]) rest
    else if c == '(' then splitCommaDepth (depth + 1) (cur ++ [c]) acc rest
    else if c == ')' then splitCommaDepth (depth - 1) (cur ++ [c]) acc rest
    else splitCommaDepth depth (cur ++ [c]) acc rest

def split_by_comma (s : String) : List String :=
  (splitCommaDepth 0 [] [] s.data).map (fun l => (⟨l⟩ : String))

/-- The token loop of `parse_aggregations`' space-separated format: a token
containing `(` or equal to `count` starts a spec, an `as` + alias pair after
it is consumed with it (fuel keeps the recursion structural; each step
consumes at least one token, so `tokens.length` fuel suffices). -/
def paLoopFuel : Nat → List String → List AggSpec
  | 0, _ => []
  | _ + 1, [] => []
  | fuel + 1, t :: rest =>
    if strTrim t == "" then paLoopFuel fuel rest
    else if containsChars t.data ['('] || strLower t == "count" then
      match rest with
      | a :: al :: rest2 =>
        if strLower a == "as" then
          match parse_single_aggregation t (some al) with
          | some s => s :: paLoopFuel fuel rest2
          | none => paLoopFuel fuel rest2
        else
          match parse_single_aggregation t none with
          | some s => s :: paLoopFuel fuel rest
          | none => paLoopFuel fuel rest
      | _ =>
        match parse_single_aggregation t none with
        | some s => s :: paLoopFuel fuel rest
        | none => paLoopFuel fuel rest
    else paLoopFuel fuel rest

def paLoop (tokens : List String) : List AggSpec := paLoopFuel tokens.length tokens

/-- `parse_aggregations(agg_str)`: legacy comma syntax when a comma is
present and no `as` appears anywhere, else the tokenised syntax. -/
def parse_aggregations (agg_str : String) : List AggSpec :=
  if containsChars agg_str.data [','] &&
      !containsChars (agg_str.data.map Char.toLower) [' ', 'a', 's', ' '] then
    (split_by_comma agg_str).foldr (fun part acc =>
      if strTrim part == "" then acc
      else match parse_single_aggregation (strTrim part) none with
        | some s => s :: acc
        | none => acc) []
  else paLoop (tokenize_aggregations agg_str)

/-! ## `commands/stats.py`: the aggregation functions -/

/-- `record.get(field)` for the optional source field of a spec (`None`
lookups always miss). -/
def aggFieldGet (r : Record) : Option String → Option Value
  | some f => r.get f
  | none => none

/-- Python truthiness of the `field` argument (`None` and `''` are falsy). -/
def fieldTruthy : Option String → Bool
  | some f => f != ""
  | none => false

/-- Python `float(value)` for aggregation inputs: ints, floats, bools and
numeric strings; anything else raises (`None` is filtered before the call).
An irrational stdev root fed back into a numeric aggregation is outside the
model (it is skipped rather than kept, a corner no test or claim reaches). -/
def pyFloatOf : Value → Option ℚ
  | .int n => some (intToRat n)
  | .rat q => some q
  | .bool b => some (intToRat (if b then 1 else 0))
  | .str s => pyParseFloat s
  | _ => none

/-- The shared "collect non-null values, keep those `float()` accepts"
loop of the numeric aggregations. -/
def numericFieldValues (data : List Record) (fld : Option String) : List ℚ :=
  data.filterMap (fun r =>
    let v := (aggFieldGet r fld).getD .null
    if valueIsNull v then none else pyFloatOf v)

/-- The non-null raw values of a field, in record order (`agg_list`, and the
collection loops of `agg_min`/`agg_max`). -/
def rawFieldValues (data : List Record) (fld : Option String) : List Value :=
  data.filterMap (fun r =>
    let v := (aggFieldGet r fld).getD .null
    if valueIsNull v then none else some v)

/-- Python `<` on two record values, `False` on `TypeError` (only used by
min/max/sorted, where Python would raise on mixed types — a corner no claim
exercises). -/
def valueLtB (v w : Value) : Bool :=
  match pyCompare .lt v w with
  | some b => b
  | none => false

/-- `min(values)` / `max(values)` (first extremum wins, as in Python). -/
def foldMin (vs : List Value) : Value :=
  match vs with
  | [] => .null
  | v :: rest => rest.foldl (fun m x => if valueLtB x m then x else m) v

def foldMax (vs : List Value) : Value :=
  match vs with
  | [] => .null
  | v :: rest => rest.foldl (fun m x => if valueLtB m x then x else m) v

/-- The `set()` of `agg_values`: deduplicate by Python `==`, unhashable
values entering as their `str()` (the source's `TypeError` fallback). -/
def dedupPyEq (vs : List Value) : List Value :=
  vs.foldl (fun acc v =>
    let hv := match v with
      | .vlist _ => Value.str (pyStr v)
      | .vdict _ => Value.str (pyStr v)
      | _ => v
    if acc.any (fun w => pyEq w hv) then acc else acc ++ [hv]) []

def insertIntoSorted (v : Value) : List Value → List Value
  | [] => [v]
  | w :: ws => if valueLtB v w then v :: w :: ws else w :: insertIntoSorted v ws

/-- `sorted(list(values))`. -/
def sortVals (vs : List Value) : List Value :=
  vs.foldl (fun acc v => insertIntoSorted v acc) []

/-- `agg_values(data, field)`: sorted distinct non-null values. -/
def aggValuesList (data : List Record) (fld : Option String) : List Value :=
  sortVals (dedupPyEq (rawFieldValues data fld))

def qSum (vals : List ℚ) : ℚ := vals.foldl qAdd (intToRat 0)

def qMean (vals : List ℚ) : ℚ := qDiv (qSum vals) (intToRat vals.length)

/-- `sum((x - mean) ** 2 for x in values)`. -/
def sqDevSum (vals : List ℚ) : ℚ :=
  qSum (vals.map (fun x => qMul (qSub x (qMean vals)) (qSub x (qMean vals))))

/-- The radicand of `agg_stdev` (population: divisor `n`); `0` for `n ≤ 1`,
mirroring the early returns of the source. -/
def stdevRadicand (vals : List ℚ) : ℚ :=
  if vals.length ≤ 1 then intToRat 0
  else qDiv (sqDevSum vals) (intToRat vals.length)

/-- The radicand of `agg_stdev_sample` (divisor `n - 1`); `0` for `n ≤ 1`. -/
def stdevSampleRadicand (vals : List ℚ) : ℚ :=
  if vals.length ≤ 1 then intToRat 0
  else qDiv (sqDevSum vals) (intToRat (vals.length - 1))

/-- Binary search for the floor square root (kernel-reducible replacement
for `Nat.sqrt`, which is defined by well-founded recursion). -/
def natSqrtAux (n : Nat) : Nat → Nat → Nat → Nat
  | 0, lo, _ => lo
  | fuel + 1, lo, hi =>
    if hi ≤ lo then lo
    else
      let mid := (lo + hi + 1) / 2
      if mid * mid ≤ n then natSqrtAux n fuel mid hi else natSqrtAux n fuel lo (mid - 1)

def natSqrtB (n : Nat) : Nat := natSqrtAux n (n + 2) 0 n

/-- Is `q` the square of a rational?  (Numerator and denominator are coprime,
so it suffices to check both for perfect squares.) -/
def ratSqrt? (q : ℚ) : Option ℚ :=
  let ns := natSqrtB q.num.natAbs
  let ds := natSqrtB q.den
  if 0 ≤ q.num && ns * ns == q.num.natAbs && ds * ds == q.den then
    some (mkRat ns ds)
  else none

/-- `math.sqrt(q)` as a `Value`: exact rational root when it exists,
otherwise the symbolic irrational root. -/
def sqrtValue (q : ℚ) : Value :=
  match ratSqrt? q with
  | some r => .rat r
  | none => .sqrtIrr q

/-- Dispatch table of the aggregation functions (`agg_count` … ). -/
def applyAgg (f : AggFunc) (data : List Record) (fld : Option String) : Value :=
  match f with
  | .count =>
    if fieldTruthy fld then
      .int (data.filter (fun r => !valueIsNull ((aggFieldGet r fld).getD .null))).length
    else .int data.length
  | .sum =>
    let vals := numericFieldValues data fld
    if vals.isEmpty then .int 0 else .rat (qSum vals)
  | .avg =>
    let vals := numericFieldValues data fld
    if vals.isEmpty then .int 0 else .rat (qMean vals)
  | .min => foldMin (rawFieldValues data fld)
  | .max => foldMax (rawFieldValues data fld)
  | .stdev =>
    let vals := numericFieldValues data fld
    if vals.length ≤ 1 then .rat (intToRat 0) else sqrtValue (stdevRadicand vals)
  | .stdevs =>
    let vals := numericFieldValues data fld
    if vals.length ≤ 1 then .rat (intToRat 0) else sqrtValue (stdevSampleRadicand vals)
  | .values => .vlist (aggValuesList data fld)
  | .list => .vlist (rawFieldValues data fld)
  | .dc => .int (aggValuesList data fld).length

/-! ## `commands/stats.py`: grouping and the two executors -/

/-- The `' by '` split shared by `execute_stats` and `execute_eventstats`
(`re.search(r'\s+by\s+', args, re.IGNORECASE)`). -/
def splitStatsArgs (args : String) : String × Option String :=
  match findKwSplit ['b', 'y'] args.data with
  | some (before, after) => (strTrim ⟨before⟩, some (strTrim ⟨after⟩))
  | none => (strTrim args, none)

/-- The tuple `key = tuple((field, record.get(field, None)) for field in
group_by_fields)`. -/
def groupKey (gbf : List String) (r : Record) : List (String × Value) :=
  gbf.map (fun f => (f, r.pyGet f))

/-- Python `==` on group-key tuples (dict keys hash/compare by `==`). -/
def keyEqB (k₁ k₂ : List (String × Value)) : Bool := pyEqDict k₁ k₂

/-- `groups[key].append(record)` for the `defaultdict(list)` of the source:
append to the first group whose key compares `==`, else create a new group
at the end (dict insertion order). -/
def insertGroup (k : List (String × Value)) (r : Record) :
    List (List (String × Value) × List Record) → List (List (String × Value) × List Record)
  | [] => [(k, [r])]
  | (k₁, rs) :: rest =>
    if keyEqB k₁ k then (k₁, rs ++ [r]) :: rest else (k₁, rs) :: insertGroup k r rest

/-- The grouping loop of both executors. -/
def groupsOf (gbf : List String) (data : List Record) :
    List (List (String × Value) × List Record) :=
  data.foldl (fun acc r => insertGroup (groupKey gbf r) r acc) []

/-- `group_aggs[key]` lookup by Python key equality. -/
def lookupGroup (k : List (String × Value)) :
    List (List (String × Value) × α) → Option α
  | [] => none
  | (k₁, v) :: rest => if keyEqB k₁ k then some v else lookupGroup k rest

/-- One aggregation-output row: every spec applied to the group's records,
inserted under its result name. -/
def aggRow (specs : List AggSpec) (rs : List Record) : Record :=
  specs.foldl (fun acc s => dictInsert acc s.1 (applyAgg s.2.1 rs s.2.2)) []

/-- The group-by field list computed from the `by` part
(`[f.strip() for f in by_part.split(',')]`). -/
def groupFieldsOf : Option String → List String
  | some bp => (splitOnChar ',' bp.data).map (fun l => strTrim ⟨l⟩)
  | none => []

/-- `execute_stats(data, args)`. -/
def execute_stats (data : List Record) (args : String) : List Record :=
  if data.isEmpty then []
  else
    let sp := splitStatsArgs args
    let group_by_fields := groupFieldsOf sp.2
    let agg_funcs := parse_aggregations sp.1
    if agg_funcs.isEmpty then []
    else if !group_by_fields.isEmpty then
      (groupsOf group_by_fields data).map (fun g =>
        agg_funcs.foldl (fun acc s => dictInsert acc s.1 (applyAgg s.2.1 g.2 s.2.2))
          (g.1.foldl (fun acc kv => dictInsert acc kv.1 kv.2) ([] : Record)))
    else [aggRow agg_funcs data]

/-- `execute_eventstats(data, args)`: same parsing and per-group values as
`execute_stats`, but every input record is copied, augmented with its
group's aggregation fields, and emitted in input order. -/
def execute_eventstats (data : List Record) (args : String) : List Record :=
  if data.isEmpty then []
  else
    let sp := splitStatsArgs args
    let group_by_fields := groupFieldsOf sp.2
    let agg_funcs := parse_aggregations sp.1
    if agg_funcs.isEmpty then data
    else if !group_by_fields.isEmpty then
      let group_aggs := (groupsOf group_by_fields data).map (fun g =>
        (g.1, aggRow agg_funcs g.2))
      data.map (fun r =>
        match lookupGroup (groupKey group_by_fields r) group_aggs with
        | some aggs => updateRecord r aggs
        | none => r)
    else
      let aggs := aggRow agg_funcs data
      data.map (fun r => updateRecord r aggs)

/-! ## `commands/fields.py` -/

/-- `execute_fields(data, args)`: `-`-prefixed argument excludes the listed
fields, otherwise the output keeps exactly the listed fields that exist on
the record, in list order. -/
def execute_fields (data : List Record) (args : String) : List Record :=
  if data.isEmpty || args == "" then data
  else
    let a1 := strTrim args
    let p := if a1.data.head? == some '-' then (true, strTrim ⟨a1.data.drop 1⟩)
      else (false, a1)
    let field_names := (splitOnChar ',' p.2.data).map (fun l => (strTrim ⟨l⟩ : String))
    data.map (fun r =>
      if p.1 then r.filter (fun kv => !field_names.contains kv.1)
      else field_names.foldl (fun acc k =>
        if r.hasKey k then dictInsert acc k (r.pyGet k) else acc) [])

/-- The `re.match(r'(\S+)\s+as\s+(\S+)', part, re.IGNORECASE)` of
`execute_rename`: `old as new`. -/
def parseRenamePair (part : String) : Option (String × String) :=
  let t1 := part.data.takeWhile (fun c => !c.isWhitespace)
  if t1.isEmpty then none
  else
    let r1 := part.data.drop t1.length
    let ws1 := r1.takeWhile Char.isWhitespace
    if ws1.isEmpty then none
    else
      let r2 := r1.drop ws1.length
      if ciStartsChars ['a', 's'] r2 then
        let r3 := r2.drop 2
        let ws2 := r3.takeWhile Char.isWhitespace
        if ws2.isEmpty then none
        else
          let t2 := (r3.drop ws2.length).takeWhile (fun c => !c.isWhitespace)
          if t2.isEmpty then none else some (⟨t1⟩, ⟨t2⟩)
      else none

/-- `mappings[old_name] = new_name` (dict semantics on a string map). -/
def strMapInsert (m : List (String × String)) (k v : String) : List (String × String) :=
  match m with
  | [] => [(k, v)]
  | (k₁, v₁) :: rest =>
    if k₁ = k then (k₁, v) :: rest else (k₁, v₁) :: strMapInsert rest k v

def strMapGet (m : List (String × String)) (k : String) : Option String :=
  match m with
  | [] => none
  | (k₁, v₁) :: rest => if k₁ = k then some v₁ else strMapGet rest k

/-- `execute_rename(data, args)`: malformed `old as new` fragments are
dropped; an empty mapping leaves the data unchanged. -/
def execute_rename (data : List Record) (args : String) : List Record :=
  if data.isEmpty || args == "" then data
  else
    let mappings := (splitOnChar ',' args.data).foldl (fun m l =>
      match parseRenamePair (strTrim ⟨l⟩) with
      | some kv => strMapInsert m kv.1 kv.2
      | none => m) []
    if mappings.isEmpty then data
    else data.map (fun r =>
      r.foldl (fun acc kv =>
        dictInsert acc ((strMapGet mappings kv.1).getD kv.1) kv.2) [])

/-- `execute_table` delegates to `execute_fields`. -/
def execute_table (data : List Record) (args : String) : List Record :=
  execute_fields data args

/-! ## `commands/sort.py` -/

/-- `get_sort_key(value)`: Python's mixed-type sort keys
`(1, 0)` for `None`, `(0, rank, payload)` otherwise with rank
bool 0 / int 1 / float 2 / str 3 / other-as-str 4. -/
inductive SKey where
  | noneK
  | num (rank : Nat) (v : ℚ ⊕ ℚ)
  | strK (rank : Nat) (s : String)

def get_sort_key : Value → SKey
  | .null => .noneK
  | .bool b => .num 0 (.inl (intToRat (if b then 1 else 0)))
  | .int n => .num 1 (.inl (intToRat n))
  | .rat q => .num 2 (.inl q)
  | .sqrtIrr q => .num 2 (.inr q)
  | .str s => .strK 3 s
  | v => .strK 4 (pyStr v)

/-- Lexicographic `<` on sort-key tuples (as Python compares them). -/
def skLt : SKey → SKey → Bool
  | .noneK, _ => false
  | .num _ _, .noneK => true
  | .strK _ _, .noneK => true
  | .num r₁ v₁, .num r₂ v₂ => r₁ < r₂ || (r₁ == r₂ && numLtB v₁ v₂)
  | .num r₁ _, .strK r₂ _ => r₁ < r₂
  | .strK r₁ _, .num r₂ _ => r₁ < r₂
  | .strK r₁ s₁, .strK r₂ s₂ => r₁ < r₂ || (r₁ == r₂ && decide (s₁ < s₂))

/-- Stable insertion: `x` goes before the first strictly greater element, so
equal keys keep their relative order (Python's sorts are stable). -/
def insertStable (lt : α → α → Bool) (x : α) : List α → List α
  | [] => [x]
  | y :: ys => if lt x y then x :: y :: ys else y :: insertStable lt x ys

/-- One stable `list.sort(key=..., reverse=...)` pass. -/
def stableSortBy (lt : α → α → Bool) (l : List α) : List α :=
  l.foldl (fun acc x => insertStable lt x acc) []

/-- `execute_sort(data, args)`: comma-separated specs with optional `-`/`+`
direction, applied rightmost-first as repeated stable sorts. -/
def execute_sort (data : List Record) (args : String) : List Record :=
  if data.isEmpty || args == "" then data
  else
    let sort_specs := (splitOnChar ',' args.data).map (fun l =>
      let fs := strTrim ⟨l⟩
      if fs.data.head? == some '-' then (strTrim ⟨fs.data.drop 1⟩, true)
      else if fs.data.head? == some '+' then (strTrim ⟨fs.data.drop 1⟩, false)
      else (fs, false))
    if sort_specs.isEmpty then data
    else
      sort_specs.reverse.foldl (fun result spec =>
        if spec.2 then
          stableSortBy (fun x y => skLt (get_sort_key (Record.pyGet y spec.1))
            (get_sort_key (Record.pyGet x spec.1))) result
        else
          stableSortBy (fun x y => skLt (get_sort_key (Record.pyGet x spec.1))
            (get_sort_key (Record.pyGet y spec.1))) result) data

/-- Python slice `l[:i]` (negative indices count from the end). -/
def pySliceTo (i : Int) (l : List α) : List α :=
  if 0 ≤ i then l.take i.toNat else l.take ((l.length : Int) + i).toNat

/-- Python slice `l[i:]`. -/
def pySliceFrom (i : Int) (l : List α) : List α :=
  if 0 ≤ i then l.drop i.toNat else l.drop ((l.length : Int) + i).toNat

/-- `execute_head(data, args)`: `data[:limit]`, default 10, bad limits kept
at the default. -/
def execute_head (data : List Record) (args : String) : List Record :=
  if data.isEmpty then data
  else
    let limit : Int := if args == "" then 10 else (pyParseInt (strTrim args)).getD 10
    pySliceTo limit data

/-- `execute_tail(data, args)`: `data[-limit:]`. -/
def execute_tail (data : List Record) (args : String) : List Record :=
  if data.isEmpty then data
  else
    let limit : Int := if args == "" then 10 else (pyParseInt (strTrim args)).getD 10
    pySliceFrom (-limit) data

/-! ## `commands/eval.py` -/

/-- `evaluate_simple_value(value_str, record)`: quoted literal, number,
field reference, else the bare string. -/
def evaluate_simple_value (value_str : String) (r : Record) : Value :=
  let v := trimChars value_str.data
  if isQuotedLiteral v then .str ⟨(v.drop 1).dropLast⟩
  else if containsChars v ['.'] then
    match pyParseFloat ⟨v⟩ with
    | some q => .rat q
    | none => if Record.hasKey r ⟨v⟩ then Record.pyGet r ⟨v⟩ else .str ⟨v⟩
  else
    match pyParseInt ⟨v⟩ with
    | some n => .int n
    | none => if Record.hasKey r ⟨v⟩ then Record.pyGet r ⟨v⟩ else .str ⟨v⟩

/-- `evaluate_simple_condition`'s operator table (`>=, <=, >, <, ==, !=`,
in that order, with `==` instead of the search syntax's `=`). -/
def simpleOps : List (CmpOp × List Char) :=
  [(.ge, ['>', '=']), (.le, ['<', '=']), (.gt, ['>']), (.lt, ['<']),
   (.eq, ['=', '=']), (.ne, ['!', '='])]

/-- `evaluate_simple_condition(condition, record)`: first operator present
splits the condition; a comparison `TypeError` yields `False`. -/
def evaluate_simple_condition (condition : String) (r : Record) : Bool :=
  match simpleOps.find? (fun p => containsChars condition.data p.2) with
  | none => false
  | some p =>
    match splitFirstChars p.2 condition.data with
    | none => false
    | some (before, after) =>
      let l := evaluate_simple_value (strTrim ⟨before⟩) r
      let rv := evaluate_simple_value (strTrim ⟨after⟩) r
      match pyCompare p.1 l rv with
      | some b => b
      | none => false

/-! ### The sandboxed arithmetic `eval` of `evaluate_expression`

The source evaluates the substituted expression with Python's own `eval`
restricted to an empty builtin environment; the spec (section 9) prescribes
modelling it as a small expression evaluator.  `pyEvalArith` implements the
arithmetic sublanguage that restriction admits — identifiers bound to record
fields, integer/decimal literals, `+ - * /`, unary minus and parentheses —
returning `none` for everything Python's `eval` would raise on (unknown
names, type errors, division by zero, syntax errors). -/

inductive ATok where
  | num (v : Value)
  | ident (s : String)
  | sym (c : Char)

/-- Tokenizer for the arithmetic sublanguage (fuel keeps the recursion
structural; each step consumes at least one character). -/
def lexArithFuel : Nat → List Char → Option (List ATok)
  | 0, l => if l.isEmpty then some [] else none
  | _ + 1, [] => some []
  | fuel + 1, c :: rest =>
    if c.isWhitespace then lexArithFuel fuel rest
    else if c.isDigit then
      let body := (c :: rest).takeWhile (fun x => x.isDigit || x == '.')
      let remaining := (c :: rest).drop body.length
      let tok : Option ATok :=
        if containsChars body ['.'] then (decimalVal? body).map (fun p => .num (.rat (mkRat p.1 p.2)))
        else (digitsVal? body).map (fun n => .num (.int n))
      match tok with
      | some t => (lexArithFuel fuel remaining).map (fun ts => t :: ts)
      | none => none
    else if c.isAlpha || c == '_' then
      let body := (c :: rest).takeWhile isWordChar
      (lexArithFuel fuel ((c :: rest).drop body.length)).map (fun ts => ATok.ident ⟨body⟩ :: ts)
    else if c == '+' || c == '-' || c == '*' || c == '/' || c == '(' || c == ')' then
      (lexArithFuel fuel rest).map (fun ts => ATok.sym c :: ts)
    else none

def lexArith (l : List Char) : Option (List ATok) := lexArithFuel l.length l

/-- Python binary arithmetic on dynamic values (`none` = raises):
int⊗int stays int, any float makes a float, `/` is always float (and
division by zero raises), `+` concatenates strings, `*` repeats them. -/
def pyArith (c : Char) (a b : Value) : Option Value :=
  let asI : Value → Option Int := fun v => match v with
    | .int n => some n
    | .bool bb => some (if bb then 1 else 0)
    | _ => none
  let asQ : Value → Option ℚ := fun v => match v with
    | .int n => some (intToRat n)
    | .bool bb => some (intToRat (if bb then 1 else 0))
    | .rat q => some q
    | _ => none
  match c, a, b with
  | '+', .str x, .str y => some (.str (x ++ y))
  | '*', .str x, .int n => some (.str ⟨(List.replicate n.toNat x.data).flatten⟩)
  | '*', .int n, .str x => some (.str ⟨(List.replicate n.toNat x.data).flatten⟩)
  | '+', .vlist x, .vlist y => some (.vlist (x ++ y))
  | '/', x, y =>
    match asQ x, asQ y with
    | some qx, some qy => if qy.num == 0 then none else some (.rat (qDiv qx qy))
    | _, _ => none
  | op, x, y =>
    match asI x, asI y with
    | some nx, some ny =>
      match op with
      | '+' => some (.int (nx + ny))
      | '-' => some (.int (nx - ny))
      | '*' => some (.int (nx * ny))
      | _ => none
    | _, _ =>
      match asQ x, asQ y with
      | some qx, some qy =>
        match op with
        | '+' => some (.rat (qAdd qx qy))
        | '-' => some (.rat (qSub qx qy))
        | '*' => some (.rat (qMul qx qy))
        | _ => none
      | _, _ => none

mutual

/-- factor ::= `-` factor | `(` expr `)` | literal | identifier -/
def pFactor (r : Record) : Nat → List ATok → Option (Value × List ATok)
  | 0, _ => none
  | fuel + 1, toks =>
    match toks with
    | .sym '-' :: rest =>
      match pFactor r fuel rest with
      | some (v, rest2) => (pyArith '-' (.int 0) v).map (fun w => (w, rest2))
      | none => none
    | .sym '(' :: rest =>
      match pExpr r fuel rest with
      | some (v, .sym ')' :: rest2) => some (v, rest2)
      | _ => none
    | .num v :: rest => some (v, rest)
    | .ident s :: rest =>
      if Record.hasKey r s then some (Record.pyGet r s, rest) else none
    | _ => none

/-- term ::= factor ((`*` | `/`) factor)* -/
def pTerm (r : Record) : Nat → List ATok → Option (Value × List ATok)
  | 0, _ => none
  | fuel + 1, toks =>
    match pFactor r fuel toks with
    | some (v, rest) => pTermLoop r fuel v rest
    | none => none

def pTermLoop (r : Record) : Nat → Value → List ATok → Option (Value × List ATok)
  | 0, _, _ => none
  | fuel + 1, acc, toks =>
    match toks with
    | .sym '*' :: rest =>
      match pFactor r fuel rest with
      | some (v, rest2) =>
        match pyArith '*' acc v with
        | some w => pTermLoop r fuel w rest2
        | none => none
      | none => none
    | .sym '/' :: rest =>
      match pFactor r fuel rest with
      | some (v, rest2) =>
        match pyArith '/' acc v with
        | some w => pTermLoop r fuel w rest2
        | none => none
      | none => none
    | _ => some (acc, toks)

/-- expr ::= term ((`+` | `-`) term)* -/
def pExpr (r : Record) : Nat → List ATok → Option (Value × List ATok)
  | 0, _ => none
  | fuel + 1, toks =>
    match pTerm r fuel toks with
    | some (v, rest) => pExprLoop r fuel v rest
    | none => none

def pExprLoop (r : Record) : Nat → Value → List ATok → Option (Value × List ATok)
  | 0, _, _ => none
  | fuel + 1, acc, toks =>
    match toks with
    | .sym '+' :: rest =>
      match pTerm r fuel rest with
      | some (v, rest2) =>
        match pyArith '+' acc v with
        | some w => pExprLoop r fuel w rest2
        | none => none
      | none => none
    | .sym '-' :: rest =>
      match pTerm r fuel rest with
      | some (v, rest2) =>
        match pyArith '-' acc v with
        | some w => pExprLoop r fuel w rest2
        | none => none
      | none => none
    | _ => some (acc, toks)

end

/-- `eval(safe_expr, {"__builtins__": {}}, eval_context)` for the arithmetic
sublanguage: `none` models any raised exception. -/
def pyEvalArith (expr : String) (r : Record) : Option Value :=
  match lexArith expr.data with
  | none => none
  | some toks =>
    match pExpr r (2 * toks.length + 2) toks with
    | some (v, []) => some v
    | _ => none

/-- The `if(cond, a, b)` recognition of `evaluate_expression`
(`re.match(r'if\s*\(\s*(.+?)\s*,\s*(.+?)\s*,\s*(.+?)\s*\)', expr, re.IGNORECASE)`,
lazy groups: first comma, second comma, first closing parenthesis). -/
def parseIfCall (expr : String) : Option (String × String × String) :=
  if ciStartsChars ['i', 'f'] expr.data then
    match (expr.data.drop 2).dropWhile Char.isWhitespace with
    | '(' :: r1 =>
      match splitFirstChars [','] r1 with
      | some (a, r2) =>
        if a.isEmpty then none
        else
          match splitFirstChars [','] r2 with
          | some (b, r3) =>
            if b.isEmpty then none
            else
              match splitFirstChars [')'] r3 with
              | some (cc, _) =>
                if cc.isEmpty then none
                else some (strTrim ⟨a⟩, strTrim ⟨b⟩, strTrim ⟨cc⟩)
              | none => none
          | none => none
      | none => none
    | _ => none
  else none

/-- `evaluate_expression(expr, record)`: `if()` call, quoted literal,
numeric literal, else field-substituted arithmetic — whose failure returns
the (stripped) expression string itself, not `None`. -/
def evaluate_expression (expr0 : String) (r : Record) : Value :=
  let expr := strTrim expr0
  match parseIfCall expr with
  | some (cond, tv, fv) =>
    if evaluate_simple_condition cond r then evaluate_simple_value tv r
    else evaluate_simple_value fv r
  | none =>
    if isQuotedLiteral expr.data then .str ⟨(expr.data.drop 1).dropLast⟩
    else
      let numv : Option Value :=
        if containsChars expr.data ['.'] then (pyParseFloat expr).map .rat
        else (pyParseInt expr).map .int
      match numv with
      | some v => v
      | none =>
        let safe : String := ⟨replaceChars [' ', '.', ' '] [' ', '+', ' '] expr.data⟩
        match pyEvalArith safe r with
        | some v => v
        | none => .str expr

/-- `re.match(r'(\w+)\s*=\s*(.+)', args)` of `execute_eval`. -/
def parseEvalAssign (args : String) : Option (String × String) :=
  let w := args.data.takeWhile isWordChar
  if w.isEmpty then none
  else
    match (args.data.drop w.length).dropWhile Char.isWhitespace with
    | '=' :: rem => if rem.isEmpty then none else some (⟨w⟩, strTrim ⟨rem⟩)
    | _ => none

/-- `execute_eval(data, args)`: set the target field on a copy of every
record to the evaluated expression (evaluation never raises in the model;
the source's `except` branch that would store `None` is unreachable because
`evaluate_expression` catches its own failures). -/
def execute_eval (data : List Record) (args : String) : List Record :=
  if data.isEmpty || args == "" then data
  else
    match parseEvalAssign args with
    | none => data
    | some (field, expr) =>
      data.map (fun r => dictInsert r field (evaluate_expression expr r))

/-! ## `parser.py` -/

/-- The command classes of `parser.py`.  The source file defines no
`EventstatsCommand` and its `COMMAND_MAP` has no `eventstats` entry (although
`executor.py` imports both names), so the embedded command type has no
eventstats variant either. -/
inductive Command where
  | search (args : String)
  | stats (args : String)
  | fields (args : String)
  | rename (args : String)
  | eval (args : String)
  | sort (args : String)
  | head (args : String)
  | tail (args : String)
  | table (args : String)
deriving DecidableEq

/-- `SPLParser.COMMAND_MAP` (each constructor also models `SPLCommand.__init__`'s
`args.strip()`). -/
def commandFromKeyword (kw : String) : Option (String → Command) :=
  if kw == "search" then some .search
  else if kw == "where" then some .search
  else if kw == "stats" then some .stats
  else if kw == "fields" then some .fields
  else if kw == "rename" then some .rename
  else if kw == "eval" then some .eval
  else if kw == "sort" then some .sort
  else if kw == "head" then some .head
  else if kw == "tail" then some .tail
  else if kw == "table" then some .table
  else none

/-- `SPLParser._split_by_pipe`: split at `|` outside quotes (single-character
backslash look-back) and outside parentheses. -/
def splitPipeAux (prev : Option Char) (inQ : Option Char) (depth : Int)
    (cur : List Char) (acc : List (List Char)) : List Char → List (List Char)
  | [] => if cur.isEmpty then acc else acc ++ [cur]
  | c :: rest =>
    let noEscape := match prev with
      | none => true
      | some p => p != '\\'
    if (c == '"' || c == '\'') && noEscape then
      let inQ2 := match inQ with
        | none => some c
        | some q => if c == q then none else some q
      splitPipeAux (some c) inQ2 depth (cur ++ [c]) acc rest
    else if c == '(' && inQ.isNone then
      splitPipeAux (some c) inQ (depth + 1) (cur ++ [c]) acc rest
    else if c == ')' && inQ.isNone then
      splitPipeAux (some c) inQ (depth - 1) (cur ++ [c]) acc rest
    else if c == '|' && inQ.isNone && depth == 0 then
      splitPipeAux (some c) inQ depth [] (acc ++ [cur]) rest
    else
      splitPipeAux (some c) inQ depth (cur ++ [c]) acc rest

/-- One segment of the pipeline: a recognised leading word selects the
command class (args after the word), anything else becomes a Search whose
condition is the whole segment. -/
def parseSegment (part : String) : Command :=
  match splitLeadingWord part with
  | some (w, rest) =>
    match commandFromKeyword (strLower w) with
    | some mk => mk (strTrim rest)
    | none => Command.search (strTrim part)
  | none => Command.search (strTrim part)

/-- `SPLParser.parse`: trim, pipe-split, per-segment parse (empty segments
dropped), then prepend `search *` when the first command is not a Search. -/
def parseQuery (query : String) : List Command :=
  let q := strTrim query
  if q == "" then []
  else
    let parts := (splitPipeAux none none 0 [] [] q.data).map (fun l => strTrim ⟨l⟩)
    let cmds := parts.foldr (fun part acc =>
      if part == "" then acc else parseSegment part :: acc) []
    match cmds with
    | [] => []
    | .search _ :: _ => cmds
    | _ => .search "*" :: cmds

/-! ## `executor.py` -/

/-- `SPL._execute_command`.  (The source also dispatches on
`EventstatsCommand` and imports `execute_eventstats`, but `parser.py`
defines no `EventstatsCommand` and `commands/__init__.py` does not export
`execute_eventstats`, so those imports fail; the embedding covers the
command classes that exist.) -/
def executeCommand (data : List Record) : Command → List Record
  | .search a => execute_search data a
  | .stats a => execute_stats data a
  | .fields a => execute_fields data a
  | .rename a => execute_rename data a
  | .table a => execute_table data a
  | .eval a => execute_eval data a
  | .sort a => execute_sort data a
  | .head a => execute_head data a
  | .tail a => execute_tail data a

/-- `SPL.search(query)`: parse the query and thread the dataset through the
commands in order.  Note the source performs no subsearch resolution here. -/
def spl_search (data : List Record) (query : String) : List Record :=
  (parseQuery query).foldl executeCommand data

/-! ## `subsearch.py` -/

/-- `extract_subsearches(query)`: bracket-delimited spans via a single depth
counter; a span is captured when the depth returns to zero.  Returns
`(text-without-brackets, start, end)` with positions into the original
string. -/
def extractSubAux (orig : List Char) (i : Nat) (depth : Int) (start : Option Nat)
    (acc : List (List Char × Nat × Nat)) : List Char → List (List Char × Nat × Nat)
  | [] => acc
  | c :: rest =>
    if c == '[' then
      let start2 := if depth == 0 then some i else start
      extractSubAux orig (i + 1) (depth + 1) start2 acc rest
    else if c == ']' then
      let depth2 := depth - 1
      match start with
      | some s =>
        if depth2 == 0 then
          extractSubAux orig (i + 1) depth2 none
            (acc ++ [((orig.drop (s + 1)).take (i - s - 1), s, i + 1)]) rest
        else extractSubAux orig (i + 1) depth2 start acc rest
      | none => extractSubAux orig (i + 1) depth2 start acc rest
    else extractSubAux orig (i + 1) depth start acc rest

def extract_subsearches (query : String) : List (List Char × Nat × Nat) :=
  extractSubAux query.data 0 0 none [] query.data

def joinSep (sep : String) : List String → String
  | [] => ""
  | [x] => x
  | x :: rest => x ++ sep ++ joinSep sep rest

/-- `field="value"` / `field=value` rendering of one subsearch value. -/
def renderCondVal : Value → String
  | .str s => "\"" ++ s ++ "\""
  | v => pyStr v

/-- `format_subsearch_results(results)`: the sentinel for no results / an
empty first record / no non-null values; `field=value` for a single value;
an `OR` join for several (duplicates kept); for several fields, per-record
space-joined AND clauses, `OR`-joined.  (The `field_prefix` parameter of the
source is never used in the synthesis and is omitted.) -/
def format_subsearch_results (results : List Record) : String :=
  match results with
  | [] => "nonsearchfield=impossiblevalue"
  | r0 :: _ =>
    if r0.isEmpty then "nonsearchfield=impossiblevalue"
    else
      match recordKeys r0 with
      | [f] =>
        let values := results.filterMap (fun r =>
          let v := (Record.get r f).getD .null
          if valueIsNull v then none else some v)
        match values with
        | [] => "nonsearchfield=impossiblevalue"
        | [v] => f ++ "=" ++ renderCondVal v
        | vs => "(" ++ joinSep " OR " (vs.map (fun v => f ++ "=" ++ renderCondVal v)) ++ ")"
      | _ =>
        let result_conditions := results.foldr (fun r acc =>
          let fcs := r.foldr (fun kv acc2 =>
            if valueIsNull kv.2 then acc2
            else (kv.1 ++ "=" ++ renderCondVal kv.2) :: acc2) []
          match fcs with
          | [] => acc
          | [one] => one :: acc
          | more => ("(" ++ joinSep " " more ++ ")") :: acc) []
        match result_conditions with
        | [] => "nonsearchfield=impossiblevalue"
        | [one] => one
        | cs => "(" ++ joinSep " OR " cs ++ ")"

/-- `execute_subsearch`: run the bracketed text as a full query against the
original dataset and format the results. -/
def execute_subsearch (subsearch_query : String) (data : List Record) : String :=
  format_subsearch_results (spl_search data subsearch_query)

/-- Index of the last separator (` `, `|`, tab) in `l`, for the backward
field-name scan of `process_subsearches`. -/
def lastSepPos (l : List Char) : Option Nat :=
  match l.reverse.findIdx? (fun c => c == ' ' || c == '|' || c == '\t') with
  | some j => some (l.length - 1 - j)
  | none => none

/-- `process_subsearches(query, data, executor)`: spans are resolved right
to left; a `field=` immediately before a span is consumed together with it;
each span (plus prefix) is replaced by the synthesized condition.  The
executor is the engine's own `search`, which (in this source) performs no
nested resolution itself. -/
def process_subsearches (query : String) (data : List Record) : String :=
  let subs := extract_subsearches query
  if subs.isEmpty then query
  else
    ⟨(subs.reverse).foldl (fun modified sub =>
      let text := sub.1
      let startPos := sub.2.1
      let endPos := sub.2.2
      let before_ss := rstripChars (modified.take startPos)
      let actualStart :=
        if !before_ss.isEmpty && before_ss.getLast? == some '=' then
          match lastSepPos before_ss.dropLast with
          | some i => i + 1
          | none => 0
        else startPos
      let condition := execute_subsearch ⟨text⟩ data
      modified.take actualStart ++ condition.data ++ modified.drop endPos) query.data⟩

/-! ## Claim-side definitions -/

/-- The total of the `count` fields over an output dataset (section 8's
"the sum of all groups' `count` equals N"). -/
def sumCounts (out : List Record) : Int :=
  (out.map (fun r =>
    match Record.get r "count" with
    | some (.int n) => n
    | _ => 0)).sum

/-- The five-record dataset of `tests/test_subsearch.py`. -/
def subsearchTestData : List Record :=
  [[("user", .str "alice"), ("action", .str "login"), ("status", .str "active"), ("score", .int 85)],
   [("user", .str "alice"), ("action", .str "search"), ("status", .str "active"), ("score", .int 90)],
   [("user", .str "bob"), ("action", .str "login"), ("status", .str "inactive"), ("score", .int 75)],
   [("user", .str "charlie"), ("action", .str "purchase"), ("status", .str "active"), ("score", .int 92)],
   [("user", .str "david"), ("action", .str "view"), ("status", .str "inactive"), ("score", .int 70)]]

/-! ## Shared helper lemmas -/

theorem dictInsert_get_self (d : Record) (k : String) (v : Value) :
    Record.get (dictInsert d k v) k = some v := by
  induction d with
  | nil => simp [dictInsert, Record.get]
  | cons kv rest ih =>
    obtain ⟨k₁, v₁⟩ := kv
    by_cases h : k₁ = k
    · simp [dictInsert, Record.get, h]
    · simp [dictInsert, Record.get, h, ih]

theorem dictInsert_get_ne (d : Record) (k k₂ : String) (v : Value) (h : k₂ ≠ k) :
    Record.get (dictInsert d k v) k₂ = Record.get d k₂ := by
  induction d with
  | nil => simp [dictInsert, Record.get, Ne.symm h]
  | cons kv rest ih =>
    obtain ⟨k₁, v₁⟩ := kv
    by_cases h1 : k₁ = k
    · subst h1
      simp [dictInsert, Record.get, Ne.symm h]
    · by_cases h2 : k₁ = k₂
      · simp [dictInsert, Record.get, h1, h2, h]
      · simp [dictInsert, Record.get, h1, h2, ih]

/-- The condition evaluator rejects any trimmed condition that is not `*`
and contains no comparison operator. -/
theorem eval_cond_no_op (r : Record) (cond : String)
    (h1 : strTrim cond ≠ "*")
    (h2 : ∀ op ∈ condOps, containsChars (strTrim cond).data (opChars op) = false) :
    evaluate_condition r cond = false := by
  unfold evaluate_condition
  have hb : (strTrim cond == "*") = false := by
    simpa using h1
  simp only [hb, Bool.false_eq_true, if_false]
  have hfind : condOps.find? (fun op => containsChars (strTrim cond).data (opChars op)) = none := by
    rw [List.find?_eq_none]
    intro op hop
    simp [h2 op hop]
  simp [hfind]

theorem filter_eq_self_of_true (l : List α) (p : α → Bool) (h : ∀ a ∈ l, p a = true) :
    l.filter p = l := by
  induction l with
  | nil => rfl
  | cons x xs ih =>
    simp only [List.filter_cons, h x (by simp)]
    simp only [if_true]
    rw [ih (fun a ha => h a (by simp [ha]))]

/-- `execute_search` is exactly a filter of the input by the per-record
condition predicate. -/
theorem execute_search_eq_filter (data : List Record) (args : String) :
    execute_search data args = data.filter (condition_matches args) := by
  unfold execute_search condition_matches
  by_cases h1 : (args == "" || args == "*") = true
  · simp only [h1, if_true]
    exact (List.filter_true data).symm
  · simp only [h1, Bool.false_eq_true, if_false]
    by_cases h2 : hasOrKeyword args = true
    · simp only [h2, if_true]
      unfold execute_search_with_or
      rfl
    · simp only [h2, Bool.false_eq_true, if_false]

/-! ## Claim theorems -/

/-- C1: the spec says the engine's execute entry point resolves every
bracket-delimited subsearch span before parsing; in the source `SPL.search`
performs no subsearch resolution at all (it parses the raw text directly),
so the repository's own subsearch test query returns `[]` where
`tests/test_subsearch.py::test_subsearch_simple` expects one record with
`count = 3` — which is exactly what the (present but never called)
`process_subsearches` would have produced. -/
theorem spl_search_ignores_subsearch :
    spl_search subsearchTestData "[search status=\"active\" | fields user] | stats count" = [] ∧
    process_subsearches "[search status=\"active\" | fields user] | stats count"
      subsearchTestData =
      "(user=\"alice\" OR user=\"alice\" OR user=\"charlie\") | stats count" ∧
    spl_search subsearchTestData
      (process_subsearches "[search status=\"active\" | fields user] | stats count"
        subsearchTestData) = [[("count", Value.int 3)]] := by
  refine ⟨rfl, by decide, rfl⟩

/-- C2: the spec's command table maps `eventstats` to an Eventstats command,
but the source `SPLParser.COMMAND_MAP` has no `eventstats` entry (and
`parser.py` defines no `EventstatsCommand`, although `executor.py` imports
one), so the segment `eventstats count` falls through to a Search command
carrying the whole segment, and executing it filters every record out. -/
theorem parse_eventstats_falls_to_search :
    parseQuery "eventstats count" = [Command.search "eventstats count"] ∧
    parseQuery "stats count" = [Command.search "*", Command.stats "count"] ∧
    spl_search [[("city", Value.str "NYC")]] "eventstats count" = [] := by
  refine ⟨by decide, by decide, rfl⟩

/-- C7: for every dataset and condition string, the Search/Where stage
returns a sublist of its input, and every returned record satisfies the
per-record condition predicate. -/
theorem execute_search_subset_and_sound (data : List Record) (args : String) :
    (execute_search data args).Sublist data ∧
    ∀ r ∈ execute_search data args, condition_matches args r = true := by
  rw [execute_search_eq_filter]
  exact ⟨List.filter_sublist data, fun r hr => List.of_mem_filter hr⟩

/-- C10: a condition that (after trimming) is not `*` and contains none of
the six comparison operators matches no record, and a query consisting of a
single bare keyword (here `error`) therefore returns the empty dataset on
every input. -/
theorem bare_keyword_matches_nothing :
    (∀ (r : Record) (cond : String), strTrim cond ≠ "*" →
      (∀ op ∈ condOps, containsChars (strTrim cond).data (opChars op) = false) →
      evaluate_condition r cond = false) ∧
    ∀ data : List Record, spl_search data "error" = [] := by
  refine ⟨eval_cond_no_op, ?_⟩
  intro data
  have hq : parseQuery "error" = [Command.search "error"] := by decide
  have hev : ∀ r : Record, evaluate_condition r "error" = false := fun r =>
    eval_cond_no_op r "error" (by decide) (by decide)
  simp only [spl_search, hq, List.foldl_cons, List.foldl_nil, executeCommand]
  unfold execute_search
  have h1 : ("error" == "" || "error" == "*") = false := by decide
  have h2 : hasOrKeyword "error" = false := by decide
  have h3 : parse_multiple_conditions "error" = ["error"] := by decide
  simp only [h1, h2, h3, Bool.false_eq_true, if_false]
  rw [List.filter_eq_nil]
  intro r _
  simp [hev r]

/-- Witness for C10 at a concrete record and dataset. -/
theorem bare_keyword_matches_nothing_witness :
    evaluate_condition [("x", Value.int 1)] "error" = false ∧
    spl_search [[("x", Value.int 1)]] "error" = [] :=
  ⟨bare_keyword_matches_nothing.1 [("x", Value.int 1)] "error" (by decide) (by decide),
   bare_keyword_matches_nothing.2 [[("x", Value.int 1)]]⟩

/-! ## C3: `stats count` -/

theorem sumLens_insertGroup (k : List (String × Value)) (r : Record)
    (gs : List (List (String × Value) × List Record)) :
    ((insertGroup k r gs).map (fun g => g.2.length)).sum =
    ((gs.map (fun g => g.2.length)).sum) + 1 := by
  induction gs with
  | nil => simp [insertGroup]
  | cons g rest ih =>
    obtain ⟨k₁, rs⟩ := g
    by_cases h : keyEqB k₁ k = true
    · simp [insertGroup, h]
      omega
    · simp [insertGroup, h, ih]
      omega

theorem sumLens_groupsOf (gbf : List String) (data : List Record) :
    ((groupsOf gbf data).map (fun g => g.2.length)).sum = data.length := by
  suffices key : ∀ (data : List Record) (acc : List (List (String × Value) × List Record)),
      ((data.foldl (fun acc r => insertGroup (groupKey gbf r) r acc) acc).map
        (fun g => g.2.length)).sum = ((acc.map (fun g => g.2.length)).sum) + data.length by
    simpa using key data []
  intro data
  induction data with
  | nil => simp
  | cons r rest ih =>
    intro acc
    simp only [List.foldl_cons, List.length_cons]
    rw [ih (insertGroup (groupKey gbf r) r acc), sumLens_insertGroup]
    omega

theorem list_sum_natCast (l : List Nat) :
    (l.map (Nat.cast : Nat → Int)).sum = (l.sum : Int) := by
  induction l with
  | nil => rfl
  | cons x xs ih =>
    simp only [List.map_cons, List.sum_cons, ih, Nat.cast_add]

/-- C3: `stats count` without grouping yields exactly one record holding the
dataset size (none when the dataset is empty); with any `by` clause the
`count` values of the group rows sum to the dataset size. -/
theorem stats_count_totals :
    (∀ data : List Record, execute_stats data "count" =
      if data.isEmpty then [] else [[("count", Value.int data.length)]]) ∧
    (∀ (data : List Record) (args bp : String),
      splitStatsArgs args = ("count", some bp) →
      sumCounts (execute_stats data args) = data.length) := by
  constructor
  · intro data
    cases data with
    | nil => rfl
    | cons r rest => rfl
  · intro data args bp h
    cases data with
    | nil => simp [execute_stats, sumCounts]
    | cons r rest =>
      unfold execute_stats
      rw [h]
      simp only [List.isEmpty_cons, Bool.false_eq_true, if_false]
      rw [show parse_aggregations "count" = [("count", AggFunc.count, none)] from rfl]
      simp only [List.isEmpty_cons, Bool.false_eq_true, if_false]
      set gbf := groupFieldsOf (some bp) with hgbf
      by_cases hg : gbf.isEmpty
      · simp only [hg, Bool.not_true, Bool.false_eq_true, if_false]
        unfold sumCounts aggRow
        simp only [List.foldl_cons, List.foldl_nil, List.map_cons, List.map_nil,
          List.sum_cons, List.sum_nil]
        rw [dictInsert_get_self]
        simp [applyAgg, fieldTruthy]
      · have hg2 : (!gbf.isEmpty) = true := by simp [hg]
        simp only [hg2, if_true]
        unfold sumCounts
        rw [List.map_map]
        have hrow : ∀ g : List (String × Value) × List Record,
            ((fun r =>
              match Record.get r "count" with
              | some (.int n) => n
              | _ => 0) ∘ (fun g : List (String × Value) × List Record =>
                [("count", AggFunc.count, (none : Option String))].foldl
                  (fun acc s => dictInsert acc s.1 (applyAgg s.2.1 g.2 s.2.2))
                  (g.1.foldl (fun acc kv => dictInsert acc kv.1 kv.2) ([] : Record)))) g =
            (g.2.length : Int) := by
          intro g
          simp only [Function.comp_apply, List.foldl_cons, List.foldl_nil]
          rw [dictInsert_get_self]
          simp [applyAgg, fieldTruthy]
        rw [List.map_congr_left (fun g _ => hrow g)]
        rw [show (fun g : List (String × Value) × List Record => (g.2.length : Int)) =
          ((Nat.cast : Nat → Int) ∘ fun g : List (String × Value) × List Record =>
            g.2.length) from rfl]
        rw [← List.map_map, list_sum_natCast, sumLens_groupsOf]

/-- Witness for C3 at concrete datasets and a concrete `count by city`
argument string. -/
theorem stats_count_totals_witness :
    execute_stats [[("city", Value.str "NYC")], [("city", Value.str "LA")]] "count" =
      (if ([[("city", Value.str "NYC")], [("city", Value.str "LA")]] : List Record).isEmpty
       then [] else [[("count", Value.int 2)]]) ∧
    sumCounts (execute_stats
      [[("city", Value.str "NYC")], [("city", Value.str "NYC")], [("city", Value.str "LA")]]
      "count by city") = 3 :=
  ⟨stats_count_totals.1 [[("city", Value.str "NYC")], [("city", Value.str "LA")]],
   stats_count_totals.2
     [[("city", Value.str "NYC")], [("city", Value.str "NYC")], [("city", Value.str "LA")]]
     "count by city" "city" (by decide)⟩

/-! ## C5: eval failure handling -/

/-- C5 counterexample: an eval expression whose arithmetic evaluation fails
(string plus int) sets the target field to the expression text, not null. -/
theorem eval_failure_sets_expression_string :
    execute_eval [[("a", Value.str "x")]] "t = a + 1" =
      [[("a", Value.str "x"), ("t", Value.str "a + 1")]] ∧
    Value.str "a + 1" ≠ Value.null :=
  ⟨rfl, by simp⟩

/-- C5 amended: a well-formed `field = expr` argument maps every record to a
copy with the field set to `evaluate_expression`'s result (the stage never
aborts and every record is processed), and when the expression reaches the
arithmetic fallback and that evaluation fails, the stored value is the
trimmed expression text itself — not null. -/
theorem execute_eval_amended (data : List Record) (args field expr : String)
    (h : parseEvalAssign args = some (field, expr)) :
    execute_eval data args =
      data.map (fun r => dictInsert r field (evaluate_expression expr r)) ∧
    ∀ r : Record, parseIfCall (strTrim expr) = none →
      isQuotedLiteral (strTrim expr).data = false →
      (if containsChars (strTrim expr).data ['.']
       then pyParseFloat (strTrim expr) = none
       else pyParseInt (strTrim expr) = none) →
      pyEvalArith ⟨replaceChars [' ', '.', ' '] [' ', '+', ' '] (strTrim expr).data⟩ r = none →
      evaluate_expression expr r = Value.str (strTrim expr) := by
  constructor
  · unfold execute_eval
    cases data with
    | nil => simp
    | cons r rest =>
      have ha : (args == "") = false := by
        by_cases hae : args = ""
        · rw [hae] at h
          have hnone : parseEvalAssign "" = none := rfl
          rw [hnone] at h
          cases h
        · simpa using hae
      simp only [List.isEmpty_cons, ha, Bool.or_self, Bool.false_eq_true, if_false, h]
  · intro r h1 h2 h3 h4
    unfold evaluate_expression
    simp only [h1, h2, Bool.false_eq_true, if_false]
    by_cases hc : containsChars (strTrim expr).data ['.']
    · rw [if_pos hc] at h3
      simp only [hc, if_true, h3, Option.map_none', h4]
    · rw [if_neg hc] at h3
      simp only [hc, Bool.false_eq_true, if_false, h3, Option.map_none', h4]

/-- Witness for C5 at the counterexample's input. -/
theorem execute_eval_amended_witness :
    execute_eval [[("a", Value.str "x")]] "t = a + 1" =
      ([[("a", Value.str "x")]] : List Record).map
        (fun r => dictInsert r "t" (evaluate_expression "a + 1" r)) ∧
    evaluate_expression "a + 1" [("a", Value.str "x")] = Value.str "a + 1" :=
  ⟨(execute_eval_amended [[("a", Value.str "x")]] "t = a + 1" "t" "a + 1" (by decide)).1,
   (execute_eval_amended [[("a", Value.str "x")]] "t = a + 1" "t" "a + 1" (by decide)).2
     [("a", Value.str "x")] (by decide) (by decide) (by decide) rfl⟩

/-! ## C6: subsearch result synthesis -/

/-- C6 counterexample: two records with the same single-field value — one
distinct value — synthesize the OR-join of both occurrences, not
`field=value`: the source never deduplicates the collected values. -/
theorem subsearch_duplicates_not_deduped :
    format_subsearch_results [[("user", Value.str "alice")], [("user", Value.str "alice")]] =
      "(user=\"alice\" OR user=\"alice\")" ∧
    dedupPyEq [Value.str "alice", Value.str "alice"] = [Value.str "alice"] ∧
    "(user=\"alice\" OR user=\"alice\")" ≠ "user=\"alice\"" :=
  ⟨rfl, rfl, by decide⟩

/-- C6 amended: empty results or a first record without fields synthesize
the guaranteed-false sentinel; when the first record has exactly one field,
exactly one non-null occurrence of that field's value gives `field=value`
(strings quoted), and two or more occurrences (duplicates retained, in
order) give the parenthesized OR-join over all occurrences. -/
theorem format_subsearch_amended :
    format_subsearch_results [] = "nonsearchfield=impossiblevalue" ∧
    (∀ rest : List Record, format_subsearch_results (([] : Record) :: rest) =
      "nonsearchfield=impossiblevalue") ∧
    ∀ (r0 : Record) (rest : List Record) (f : String), recordKeys r0 = [f] →
      format_subsearch_results (r0 :: rest) =
        (match (r0 :: rest).filterMap (fun r =>
            let v := (Record.get r f).getD .null
            if valueIsNull v then none else some v) with
         | [] => "nonsearchfield=impossiblevalue"
         | [v] => f ++ "=" ++ renderCondVal v
         | vs => "(" ++ joinSep " OR " (vs.map (fun v => f ++ "=" ++ renderCondVal v)) ++ ")") := by
  refine ⟨rfl, fun rest => rfl, ?_⟩
  intro r0 rest f hk
  cases r0 with
  | nil => simp [recordKeys] at hk
  | cons kv r0t =>
    unfold format_subsearch_results
    simp only [List.isEmpty_cons, Bool.false_eq_true, if_false, hk]

/-- Witness for C6 at a single-record, single-value input. -/
theorem format_subsearch_amended_witness :
    format_subsearch_results [[("user", Value.str "alice")]] = "user=\"alice\"" :=
  format_subsearch_amended.2.2 [("user", Value.str "alice")] [] "user" rfl

/-! ## C9: standard deviation invariants

Bridge lemmas first: the kernel-reducible `mkRat` arithmetic agrees with the
standard field operations on ℚ. -/

theorem intToRat_eq (n : Int) : intToRat n = (n : ℚ) := Rat.mkRat_one n

theorem rat_num_eq_mul_den (a : ℚ) : (a.num : ℚ) = a * (a.den : ℚ) := by
  have h0 := Rat.num_div_den a
  rw [div_eq_iff (show ((a.den : ℚ)) ≠ 0 by exact_mod_cast a.den_ne_zero)] at h0
  exact h0

theorem qAdd_eq (a b : ℚ) : qAdd a b = a + b := by
  unfold qAdd
  rw [Rat.mkRat_eq_divInt, Rat.divInt_eq_div]
  have ha : ((a.den : ℚ)) ≠ 0 := by exact_mod_cast a.den_ne_zero
  have hb : ((b.den : ℚ)) ≠ 0 := by exact_mod_cast b.den_ne_zero
  push_cast
  rw [div_eq_iff (mul_ne_zero ha hb), rat_num_eq_mul_den a, rat_num_eq_mul_den b]
  ring

theorem qSub_eq (a b : ℚ) : qSub a b = a - b := by
  unfold qSub
  rw [Rat.mkRat_eq_divInt, Rat.divInt_eq_div]
  have ha : ((a.den : ℚ)) ≠ 0 := by exact_mod_cast a.den_ne_zero
  have hb : ((b.den : ℚ)) ≠ 0 := by exact_mod_cast b.den_ne_zero
  push_cast
  rw [div_eq_iff (mul_ne_zero ha hb), rat_num_eq_mul_den a, rat_num_eq_mul_den b]
  ring

theorem qMul_eq (a b : ℚ) : qMul a b = a * b := by
  unfold qMul
  rw [Rat.mkRat_eq_divInt, Rat.divInt_eq_div]
  have ha : ((a.den : ℚ)) ≠ 0 := by exact_mod_cast a.den_ne_zero
  have hb : ((b.den : ℚ)) ≠ 0 := by exact_mod_cast b.den_ne_zero
  push_cast
  rw [div_eq_iff (mul_ne_zero ha hb), rat_num_eq_mul_den a, rat_num_eq_mul_den b]
  ring

theorem rat_div_num_den (a b : ℚ) :
    ((a.num : ℚ) * (b.den : ℚ)) / ((a.den : ℚ) * (b.num : ℚ)) = a / b := by
  have ha : ((a.den : ℚ)) ≠ 0 := by exact_mod_cast a.den_ne_zero
  have hb : ((b.den : ℚ)) ≠ 0 := by exact_mod_cast b.den_ne_zero
  by_cases hb0 : b = 0
  · subst hb0
    simp
  · have hbn : ((b.num : ℚ)) ≠ 0 := by
      simp only [ne_eq, Int.cast_eq_zero, Rat.num_eq_zero]
      exact hb0
    rw [div_eq_div_iff (mul_ne_zero ha hbn) hb0]
    rw [rat_num_eq_mul_den a, rat_num_eq_mul_den b]
    ring

theorem qDiv_eq (a b : ℚ) : qDiv a b = a / b := by
  unfold qDiv
  by_cases hneg : b.num < 0
  · rw [if_pos hneg, Rat.mkRat_eq_divInt, Rat.divInt_eq_div]
    rw [← rat_div_num_den a b]
    push_cast [Int.cast_natAbs]
    rw [abs_of_neg (show ((b.num : ℚ)) < 0 by exact_mod_cast hneg)]
    by_cases hd : ((a.den : ℚ)) * (b.num : ℚ) = 0
    · have hd2 : ((a.den : ℚ)) * -((b.num : ℚ)) = 0 := by
        rw [mul_neg, neg_eq_zero]
        exact hd
      rw [hd, hd2, div_zero, div_zero]
    · rw [div_eq_div_iff]
      · ring
      · intro hz
        apply hd
        rw [mul_neg, neg_eq_zero] at hz
        exact hz
      · exact hd
  · rw [if_neg hneg, Rat.mkRat_eq_divInt, Rat.divInt_eq_div]
    rw [← rat_div_num_den a b]
    push_cast [Int.cast_natAbs]
    rw [abs_of_nonneg (show (0 : ℚ) ≤ (b.num : ℚ) by exact_mod_cast not_lt.mp hneg)]

theorem foldl_qAdd (l : List ℚ) : ∀ acc : ℚ, l.foldl qAdd acc = acc + l.sum := by
  induction l with
  | nil => intro acc; simp
  | cons x xs ih =>
    intro acc
    simp only [List.foldl_cons, ih, qAdd_eq, List.sum_cons]
    ring

theorem qSum_eq (l : List ℚ) : qSum l = l.sum := by
  unfold qSum
  rw [foldl_qAdd, intToRat_eq]
  simp

theorem sqDevSum_nonneg (vals : List ℚ) : 0 ≤ sqDevSum vals := by
  unfold sqDevSum
  rw [qSum_eq]
  apply List.sum_nonneg
  intro x hx
  simp only [List.mem_map] at hx
  obtain ⟨y, _, rfl⟩ := hx
  rw [qMul_eq]
  exact mul_self_nonneg _

/-- The concrete `[10, 20, 30]` dataset of section 8's stdev invariants. -/
def stdevSampleData : List Record :=
  [[("value", Value.int 10)], [("value", Value.int 20)], [("value", Value.int 30)]]

/-- C9: population stdev of a single collected value is exactly `0.0`;
for `n > 1` the sample stdev (divisor `n-1`) dominates the population stdev
(divisor `n`), stated through `Real.sqrt` of the radicands the code feeds to
`math.sqrt`; on `[10, 20, 30]` the population stdev is within `10⁻⁴` of
`8.1650` and the sample stdev is exactly `10` (the engine even stores the
exact rational `10` for it). -/
theorem stdev_invariants :
    (∀ (data : List Record) (fld : Option String),
      (numericFieldValues data fld).length = 1 →
      applyAgg AggFunc.stdev data fld = Value.rat (intToRat 0)) ∧
    (∀ vals : List ℚ, 1 < vals.length →
      Real.sqrt ((stdevRadicand vals : ℚ) : ℝ) ≤
        Real.sqrt ((stdevSampleRadicand vals : ℚ) : ℝ)) ∧
    |Real.sqrt ((stdevRadicand (numericFieldValues stdevSampleData (some "value")) : ℚ) : ℝ) -
      8.1650| < 0.0001 ∧
    Real.sqrt ((stdevSampleRadicand (numericFieldValues stdevSampleData (some "value")) : ℚ) : ℝ)
      = 10 ∧
    applyAgg AggFunc.stdevs stdevSampleData (some "value") = Value.rat (intToRat 10) := by
  refine ⟨?_, ?_, ?_, ?_, rfl⟩
  · intro data fld h
    have hle : (numericFieldValues data fld).length ≤ 1 := by omega
    unfold applyAgg
    simp only [hle, if_true]
  · intro vals h
    apply Real.sqrt_le_sqrt
    rw [Rat.cast_le]
    unfold stdevRadicand stdevSampleRadicand
    rw [if_neg (by omega), if_neg (by omega), qDiv_eq, qDiv_eq, intToRat_eq, intToRat_eq]
    push_cast
    have hS := sqDevSum_nonneg vals
    have h2 : (1 : ℚ) ≤ ((vals.length : Nat) : ℚ) - 1 := by
      have hx : (2 : ℚ) ≤ ((vals.length : Nat) : ℚ) := by exact_mod_cast h
      linarith
    gcongr
    all_goals linarith
  · have hval : stdevRadicand (numericFieldValues stdevSampleData (some "value")) =
        mkRat 200 3 := rfl
    rw [hval]
    have hcast : ((mkRat 200 3 : ℚ) : ℝ) = 200 / 3 := by
      rw [Rat.mkRat_eq_divInt, Rat.divInt_eq_div]
      push_cast
      norm_num
    rw [hcast, abs_sub_lt_iff]
    constructor
    · have h1 : Real.sqrt (200 / 3) < 8.1650 := by
        rw [show (8.1650 : ℝ) = Real.sqrt (8.1650 ^ 2) by rw [Real.sqrt_sq (by norm_num)]]
        apply Real.sqrt_lt_sqrt (by norm_num) (by norm_num)
      linarith
    · have h2 : (8.1649 : ℝ) < Real.sqrt (200 / 3) := by
        rw [show (8.1649 : ℝ) = Real.sqrt (8.1649 ^ 2) by rw [Real.sqrt_sq (by norm_num)]]
        apply Real.sqrt_lt_sqrt (by norm_num) (by norm_num)
      linarith
  · have hval : stdevSampleRadicand (numericFieldValues stdevSampleData (some "value")) =
        mkRat 100 1 := rfl
    rw [hval]
    have hcast : ((mkRat 100 1 : ℚ) : ℝ) = 100 := by
      rw [Rat.mkRat_one]
      push_cast
      norm_num
    rw [hcast]
    rw [show (100 : ℝ) = 10 ^ 2 by norm_num, Real.sqrt_sq (by norm_num)]

/-- Witness for C9 at concrete inputs. -/
theorem stdev_invariants_witness :
    applyAgg AggFunc.stdev [[("v", Value.int 7)]] (some "v") = Value.rat (intToRat 0) ∧
    Real.sqrt ((stdevRadicand [intToRat 10, intToRat 20] : ℚ) : ℝ) ≤
      Real.sqrt ((stdevSampleRadicand [intToRat 10, intToRat 20] : ℚ) : ℝ) :=
  ⟨stdev_invariants.1 [[("v", Value.int 7)]] (some "v") rfl,
   stdev_invariants.2.1 [intToRat 10, intToRat 20] (by decide)⟩

/-! ## C4: canonical values and the characterisation of Python `==` -/

/-- Canonical form of a `Value` under Python `==`: all numeric kinds map to
their exact rational value, so `pyEq` becomes propositional equality of
canonical forms. -/
inductive CanonV where
  | cnull
  | cnum (q : ℚ)
  | cstr (s : String)
  | csqrt (q : ℚ)
  | clist (vs : List CanonV)
  | cdict (d : List (String × CanonV))

mutual

def canon : Value → CanonV
  | .null => .cnull
  | .bool b => .cnum (intToRat (if b then 1 else 0))
  | .int n => .cnum (intToRat n)
  | .rat q => .cnum q
  | .str s => .cstr s
  | .sqrtIrr q => .csqrt q
  | .vlist vs => .clist (canonList vs)
  | .vdict d => .cdict (canonDict d)

def canonList : List Value → List CanonV
  | [] => []
  | v :: rest => canon v :: canonList rest

def canonDict : List (String × Value) → List (String × CanonV)
  | [] => []
  | (k, v) :: rest => (k, canon v) :: canonDict rest

end

theorem qEqB_iff (a b : ℚ) : qEqB a b = true ↔ a = b := by
  unfold qEqB
  rw [Bool.and_eq_true, beq_iff_eq, beq_iff_eq]
  constructor
  · rintro ⟨h1, h2⟩
    exact Rat.ext h1 h2
  · rintro rfl
    exact ⟨rfl, rfl⟩

theorem intToRat_inj {m n : Int} : intToRat m = intToRat n ↔ m = n := by
  rw [intToRat_eq, intToRat_eq]
  exact_mod_cast Int.cast_inj

theorem pyEq_iff_canon : ∀ a b : Value, pyEq a b = true ↔ canon a = canon b := by
  have key : ∀ n : Nat, ∀ a b : Value, sizeOf a ≤ n →
      (pyEq a b = true ↔ canon a = canon b) := by
    intro n
    induction n with
    | zero =>
      intro a b ha
      exfalso
      cases a <;> simp_all <;> omega
    | succ n ih =>
      intro a b ha
      cases a with
      | null => cases b <;> simp [pyEq, canon]
      | bool x =>
        cases b with
        | null => simp [pyEq, canon]
        | bool y =>
          simp only [pyEq, canon, beq_iff_eq, CanonV.cnum.injEq, intToRat_inj]
          cases x <;> cases y <;> simp
        | int m =>
          simp only [pyEq, canon, beq_iff_eq, CanonV.cnum.injEq, intToRat_inj]
        | rat q =>
          simp only [pyEq, canon, qEqB_iff, CanonV.cnum.injEq]
        | str s => simp [pyEq, canon]
        | sqrtIrr q => simp [pyEq, canon]
        | vlist vs => simp [pyEq, canon]
        | vdict d => simp [pyEq, canon]
      | int m =>
        cases b with
        | null => simp [pyEq, canon]
        | bool y =>
          simp only [pyEq, canon, beq_iff_eq, CanonV.cnum.injEq, intToRat_inj]
        | int k =>
          simp only [pyEq, canon, beq_iff_eq, CanonV.cnum.injEq, intToRat_inj]
        | rat q => simp only [pyEq, canon, qEqB_iff, CanonV.cnum.injEq]
        | str s => simp [pyEq, canon]
        | sqrtIrr q => simp [pyEq, canon]
        | vlist vs => simp [pyEq, canon]
        | vdict d => simp [pyEq, canon]
      | rat q =>
        cases b with
        | null => simp [pyEq, canon]
        | bool y => simp only [pyEq, canon, qEqB_iff, CanonV.cnum.injEq]
        | int k => simp only [pyEq, canon, qEqB_iff, CanonV.cnum.injEq]
        | rat p => simp only [pyEq, canon, qEqB_iff, CanonV.cnum.injEq]
        | str s => simp [pyEq, canon]
        | sqrtIrr p => simp [pyEq, canon]
        | vlist vs => simp [pyEq, canon]
        | vdict d => simp [pyEq, canon]
      | str s =>
        cases b <;> simp [pyEq, canon, beq_iff_eq]
      | sqrtIrr q =>
        cases b <;> simp [pyEq, canon, qEqB_iff]
      | vlist vs =>
        cases b with
        | vlist ws =>
          simp only [pyEq, canon, CanonV.clist.injEq]
          induction vs generalizing ws with
          | nil => cases ws <;> simp [pyEqList, canonList]
          | cons v vt ihv =>
            cases ws with
            | nil => simp [pyEqList, canonList]
            | cons w wt =>
              simp only [pyEqList, canonList, Bool.and_eq_true, List.cons.injEq]
              constructor
              · rintro ⟨h1, h2⟩
                refine ⟨?_, ?_⟩
                · exact (ih v w (by simp at ha ⊢; omega)).mp h1
                · exact (ihv (by simp at ha ⊢; omega) wt).mp h2
              · rintro ⟨h1, h2⟩
                refine ⟨?_, ?_⟩
                · exact (ih v w (by simp at ha ⊢; omega)).mpr h1
                · exact (ihv (by simp at ha ⊢; omega) wt).mpr h2
        | null => simp [pyEq, canon]
        | bool y => simp [pyEq, canon]
        | int m => simp [pyEq, canon]
        | rat p => simp [pyEq, canon]
        | str t => simp [pyEq, canon]
        | sqrtIrr p => simp [pyEq, canon]
        | vdict d => simp [pyEq, canon]
      | vdict d =>
        cases b with
        | vdict e =>
          simp only [pyEq, canon, CanonV.cdict.injEq]
          induction d generalizing e with
          | nil => cases e <;> simp [pyEqDict, canonDict]
          | cons kv dt ihd =>
            obtain ⟨k₁, v₁⟩ := kv
            cases e with
            | nil => simp [pyEqDict, canonDict]
            | cons kw et =>
              obtain ⟨k₂, v₂⟩ := kw
              simp only [pyEqDict, canonDict, Bool.and_eq_true, List.cons.injEq,
                Prod.mk.injEq, beq_iff_eq]
              constructor
              · rintro ⟨⟨h0, h1⟩, h2⟩
                refine ⟨⟨h0, ?_⟩, ?_⟩
                · exact (ih v₁ v₂ (by simp at ha ⊢; omega)).mp h1
                · exact (ihd (by simp at ha ⊢; omega) et).mp h2
              · rintro ⟨⟨h0, h1⟩, h2⟩
                refine ⟨⟨h0, ?_⟩, ?_⟩
                · exact (ih v₁ v₂ (by simp at ha ⊢; omega)).mpr h1
                · exact (ihd (by simp at ha ⊢; omega) et).mpr h2
        | null => simp [pyEq, canon]
        | bool y => simp [pyEq, canon]
        | int m => simp [pyEq, canon]
        | rat p => simp [pyEq, canon]
        | str t => simp [pyEq, canon]
        | sqrtIrr p => simp [pyEq, canon]
        | vlist vs => simp [pyEq, canon]
  intro a b
  exact key (sizeOf a) a b le_rfl

/-- `pyEqDict` (hence group-key equality) is equality of canonical forms. -/
theorem pyEqDict_iff_canon (d e : List (String × Value)) :
    pyEqDict d e = true ↔ canonDict d = canonDict e := by
  induction d generalizing e with
  | nil => cases e <;> simp [pyEqDict, canonDict]
  | cons kv dt ihd =>
    obtain ⟨k₁, v₁⟩ := kv
    cases e with
    | nil => simp [pyEqDict, canonDict]
    | cons kw et =>
      obtain ⟨k₂, v₂⟩ := kw
      simp [pyEqDict, canonDict, pyEq_iff_canon, ihd, beq_iff_eq, Prod.mk.injEq,
        and_assoc]

theorem keyEqB_iff (k₁ k₂ : List (String × Value)) :
    keyEqB k₁ k₂ = true ↔ canonDict k₁ = canonDict k₂ :=
  pyEqDict_iff_canon k₁ k₂

theorem keyEqB_refl (k : List (String × Value)) : keyEqB k k = true :=
  (keyEqB_iff k k).mpr rfl

/-- Looking up after one grouping insertion: a matching insert extends (or
creates) exactly the group the lookup finds; a non-matching insert is
invisible to the lookup.  (Key comparisons agree because `keyEqB` is
equality of canonical forms.) -/
theorem lookupGroup_insertGroup (k₀ k : List (String × Value)) (r : Record)
    (gs : List (List (String × Value) × List Record)) :
    lookupGroup k₀ (insertGroup k r gs) =
      if keyEqB k k₀ = true then
        match lookupGroup k₀ gs with
        | some ms => some (ms ++ [r])
        | none => some [r]
      else lookupGroup k₀ gs := by
  induction gs with
  | nil =>
    by_cases hk : keyEqB k k₀ = true <;>
      simp [insertGroup, lookupGroup, hk]
  | cons g gt ih =>
    obtain ⟨k₁, ms₁⟩ := g
    by_cases hm : keyEqB k₁ k = true
    · have hck : canonDict k₁ = canonDict k := (keyEqB_iff _ _).mp hm
      by_cases hk : keyEqB k k₀ = true
      · have hg : keyEqB k₁ k₀ = true := by
          rw [keyEqB_iff] at hk ⊢
          rw [hck, hk]
        simp [insertGroup, lookupGroup, hm, hk, hg]
      · have hg : keyEqB k₁ k₀ = false := by
          rw [Bool.eq_false_iff]
          intro hcon
          apply hk
          rw [keyEqB_iff] at hcon ⊢
          rw [← hck, hcon]
        simp [insertGroup, lookupGroup, hm, hk, hg]
    · by_cases hg : keyEqB k₁ k₀ = true
      · have hk : keyEqB k k₀ = false := by
          rw [Bool.eq_false_iff]
          intro hcon
          apply hm
          rw [keyEqB_iff] at hcon hg ⊢
          rw [hg, hcon]
        simp [insertGroup, lookupGroup, hm, hk, hg]
      · simp only [Bool.not_eq_true] at hm hg
        simp [insertGroup, lookupGroup, hm, hg, ih]

/-- The grouping fold, characterised: the group found for `k₀` consists of
the accumulated members plus every record whose group key compares equal
to `k₀`, in input order. -/
theorem foldl_insertGroup_lookup (gbf : List String) (k₀ : List (String × Value)) :
    ∀ (data : List Record) (gs : List (List (String × Value) × List Record)),
    lookupGroup k₀ (data.foldl (fun acc r => insertGroup (groupKey gbf r) r acc) gs) =
      match lookupGroup k₀ gs with
      | some ms => some (ms ++ data.filter (fun x => keyEqB (groupKey gbf x) k₀))
      | none =>
        match data.filter (fun x => keyEqB (groupKey gbf x) k₀) with
        | [] => none
        | ms => some ms := by
  intro data
  induction data with
  | nil =>
    intro gs
    cases h : lookupGroup k₀ gs <;> simp [h, List.filter_nil]
  | cons r rest ih =>
    intro gs
    simp only [List.foldl_cons]
    rw [ih (insertGroup (groupKey gbf r) r gs), lookupGroup_insertGroup]
    by_cases hk : keyEqB (groupKey gbf r) k₀ = true
    · simp only [hk, if_true, List.filter_cons, hk]
      cases h : lookupGroup k₀ gs with
      | some ms => simp
      | none => simp
    · have hk2 : keyEqB (groupKey gbf r) k₀ = false := by
        rw [Bool.eq_false_iff]
        exact hk
      simp only [hk, Bool.false_eq_true, if_false, List.filter_cons, hk2]

/-- Every record's group in `groupsOf` is exactly the filter of the dataset
by its group key. -/
theorem lookupGroup_groupsOf (gbf : List String) (data : List Record) (r : Record)
    (hr : r ∈ data) :
    lookupGroup (groupKey gbf r) (groupsOf gbf data) =
      some (data.filter (fun x => keyEqB (groupKey gbf x) (groupKey gbf r))) := by
  unfold groupsOf
  rw [foldl_insertGroup_lookup gbf (groupKey gbf r) data []]
  have hnil : lookupGroup (groupKey gbf r) ([] : List (List (String × Value) × List Record)) =
      none := rfl
  rw [hnil]
  have hmem : r ∈ data.filter (fun x => keyEqB (groupKey gbf x) (groupKey gbf r)) :=
    List.mem_filter.mpr ⟨hr, keyEqB_refl _⟩
  cases h : data.filter (fun x => keyEqB (groupKey gbf x) (groupKey gbf r)) with
  | nil => rw [h] at hmem; cases hmem
  | cons a l => rfl

theorem lookupGroup_map (k : List (String × Value))
    (gs : List (List (String × Value) × List Record)) (f : List Record → Record) :
    lookupGroup k (gs.map (fun g => (g.1, f g.2))) = (lookupGroup k gs).map f := by
  induction gs with
  | nil => rfl
  | cons g gt ih =>
    by_cases h : keyEqB g.1 k = true <;> simp [lookupGroup, h, ih]

theorem dictInsert_keys_mem {d : Record} {k k₂ : String} {v : Value}
    (h : k₂ ∈ (dictInsert d k v).map Prod.fst) : k₂ ∈ d.map Prod.fst ∨ k₂ = k := by
  induction d with
  | nil =>
    simp [dictInsert] at h
    exact Or.inr h
  | cons kv rest ih =>
    obtain ⟨k₁, v₁⟩ := kv
    by_cases h1 : k₁ = k
    · simp [dictInsert, h1] at h
      rcases h with h | h
      · exact Or.inl (by simp [h, h1])
      · exact Or.inl (by simp [h])
    · simp only [dictInsert, h1, if_false, List.map_cons, List.mem_cons] at h
      rcases h with h | h
      · exact Or.inl (by simp [h])
      · rcases ih h with h2 | h2
        · exact Or.inl (by simp [h2])
        · exact Or.inr h2

theorem dictInsert_append_not_mem {d : Record} {k : String} {v : Value}
    (h : k ∉ d.map Prod.fst) : dictInsert d k v = d ++ [(k, v)] := by
  induction d with
  | nil => rfl
  | cons kv rest ih =>
    obtain ⟨k₁, v₁⟩ := kv
    simp only [List.map_cons, List.mem_cons, not_or] at h
    have hne : k₁ ≠ k := fun hh => h.1 hh.symm
    simp only [dictInsert, hne, if_false, List.cons_append, List.cons.injEq, true_and]
    exact ih h.2

theorem aggRow_keys_sub (specs : List AggSpec) (rs : List Record) (k : String)
    (h : k ∈ (aggRow specs rs).map Prod.fst) : k ∈ specs.map (fun s => s.1) := by
  suffices key : ∀ (specs : List AggSpec) (acc : Record),
      k ∈ ((specs.foldl (fun acc s => dictInsert acc s.1 (applyAgg s.2.1 rs s.2.2))
        acc).map Prod.fst) →
      k ∈ acc.map Prod.fst ∨ k ∈ specs.map (fun s => s.1) by
    rcases key specs [] h with h2 | h2
    · simp at h2
    · exact h2
  intro specs
  induction specs with
  | nil =>
    intro acc h2
    exact Or.inl h2
  | cons s st ih =>
    intro acc h2
    simp only [List.foldl_cons] at h2
    rcases ih _ h2 with h3 | h3
    · rcases dictInsert_keys_mem h3 with h4 | h4
      · exact Or.inl h4
      · exact Or.inr (by simp [h4])
    · exact Or.inr (by simp [h3])

theorem aggRow_eq_of_nodup (specs : List AggSpec) (rs : List Record)
    (hnd : (specs.map (fun s => s.1)).Nodup) :
    aggRow specs rs = specs.map (fun s => (s.1, applyAgg s.2.1 rs s.2.2)) := by
  suffices key : ∀ (specs : List AggSpec) (acc : Record),
      (specs.map (fun s => s.1)).Nodup →
      (∀ s ∈ specs, s.1 ∉ acc.map Prod.fst) →
      specs.foldl (fun acc s => dictInsert acc s.1 (applyAgg s.2.1 rs s.2.2)) acc =
        acc ++ specs.map (fun s => (s.1, applyAgg s.2.1 rs s.2.2)) by
    have h0 := key specs [] hnd (by simp)
    simpa using h0
  intro specs
  induction specs with
  | nil => intro acc _ _; simp
  | cons s st ih =>
    intro acc hnd2 hdisj
    simp only [List.foldl_cons]
    rw [dictInsert_append_not_mem (hdisj s (by simp))]
    rw [ih (acc ++ [(s.1, applyAgg s.2.1 rs s.2.2)]) (by simpa using hnd2.tail) ?_]
    · simp
    · intro s2 hs2
      simp only [List.map_append, List.mem_append, not_or]
      refine ⟨hdisj s2 (by simp [hs2]), ?_⟩
      simp only [List.map_cons, List.nodup_cons] at hnd2
      intro hmem
      simp at hmem
      exact hnd2.1 (by rw [← hmem]; exact List.mem_map.mpr ⟨s2, hs2, rfl⟩)

theorem updateRecord_get_not_mem (r : Record) (kvs : List (String × Value)) (k : String)
    (h : k ∉ kvs.map Prod.fst) :
    Record.get (updateRecord r kvs) k = Record.get r k := by
  induction kvs generalizing r with
  | nil => rfl
  | cons kv rest ih =>
    obtain ⟨k₁, v₁⟩ := kv
    simp only [List.map_cons, List.mem_cons, not_or] at h
    unfold updateRecord
    simp only [List.foldl_cons]
    rw [show List.foldl (fun acc kv => dictInsert acc kv.1 kv.2)
      (dictInsert r k₁ v₁) rest = updateRecord (dictInsert r k₁ v₁) rest from rfl]
    rw [ih _ h.2, dictInsert_get_ne _ _ _ _ h.1]

theorem updateRecord_get_mem_nodup (kvs : List (String × Value)) :
    ∀ (r : Record) (k : String) (v : Value),
    (kvs.map Prod.fst).Nodup → (k, v) ∈ kvs →
    Record.get (updateRecord r kvs) k = some v := by
  induction kvs with
  | nil =>
    intro r k v _ hm
    cases hm
  | cons kv rest ih =>
    intro r k v hnd hm
    obtain ⟨k₁, v₁⟩ := kv
    simp only [List.map_cons, List.nodup_cons] at hnd
    unfold updateRecord
    simp only [List.foldl_cons]
    rw [show List.foldl (fun acc kv => dictInsert acc kv.1 kv.2)
      (dictInsert r k₁ v₁) rest = updateRecord (dictInsert r k₁ v₁) rest from rfl]
    rcases List.mem_cons.mp hm with h | h
    · cases h
      rw [updateRecord_get_not_mem _ _ _ hnd.1]
      exact dictInsert_get_self _ _ _
    · exact ih (dictInsert r k₁ v₁) k v hnd.2 h

/-- C4 refinement-side characterisation: the records of `data` sharing `r`'s
group key under `args`' by-clause (the whole dataset when no grouping). -/
def groupMembers (data : List Record) (args : String) (r : Record) : List Record :=
  let gbf := groupFieldsOf (splitStatsArgs args).2
  if gbf.isEmpty then data
  else data.filter (fun x => keyEqB (groupKey gbf x) (groupKey gbf r))

theorem groupMembers_of_empty (args : String)
    (h : (groupFieldsOf (splitStatsArgs args).2).isEmpty = true)
    (data : List Record) (r : Record) : groupMembers data args r = data := by
  unfold groupMembers
  simp [h]

theorem groupMembers_of_grouped (args : String)
    (h : (groupFieldsOf (splitStatsArgs args).2).isEmpty = false)
    (data : List Record) (r : Record) :
    groupMembers data args r =
      data.filter (fun x => keyEqB (groupKey (groupFieldsOf (splitStatsArgs args).2) x)
        (groupKey (groupFieldsOf (splitStatsArgs args).2) r)) := by
  unfold groupMembers
  simp [h]

/-- `execute_eventstats` is the map that augments every record with the
aggregation row of its own group. -/
theorem execute_eventstats_eq_map (data : List Record) (args : String) :
    execute_eventstats data args =
      data.map (fun r =>
        updateRecord r (aggRow (parse_aggregations (splitStatsArgs args).1)
          (groupMembers data args r))) := by
  cases data with
  | nil => rfl
  | cons r0 rest =>
    unfold execute_eventstats
    simp only [List.isEmpty_cons, Bool.false_eq_true, if_false]
    by_cases hs : (parse_aggregations (splitStatsArgs args).1).isEmpty
    · have hse : parse_aggregations (splitStatsArgs args).1 = [] :=
        List.isEmpty_iff.mp hs
      simp only [hs, if_true, hse]
      rw [List.map_congr_left (fun r _ =>
        show updateRecord r (aggRow [] (groupMembers (r0 :: rest) args r)) = r from rfl)]
      exact (List.map_id _).symm
    · simp only [hs, Bool.false_eq_true, if_false]
      by_cases hg : (groupFieldsOf (splitStatsArgs args).2).isEmpty
      · have hg2 : (!(groupFieldsOf (splitStatsArgs args).2).isEmpty) = false := by
          simp [hg]
        simp only [hg2, Bool.false_eq_true, if_false]
        simp only [groupMembers_of_empty args hg]
      · have hg2 : (!(groupFieldsOf (splitStatsArgs args).2).isEmpty) = true := by
          simp [hg]
        have hg3 : (groupFieldsOf (splitStatsArgs args).2).isEmpty = false := by
          simp only [Bool.not_eq_true] at hg
          exact hg
        simp only [hg2, if_true]
        simp only [groupMembers_of_grouped args hg3]
        apply List.map_congr_left
        intro r hr
        rw [lookupGroup_map, lookupGroup_groupsOf _ _ r hr]
        rfl

/-- C4 counterexample: an aggregation result name that collides with an
existing field overwrites it — the original value is not preserved. -/
theorem eventstats_overwrites_colliding_field :
    execute_eventstats [[("count", Value.int 5)]] "count" = [[("count", Value.int 1)]] ∧
    Value.int 1 ≠ Value.int 5 :=
  ⟨rfl, by simp⟩

/-- C4 amended: eventstats returns exactly as many records as it got, in
input order; the i-th output record agrees with the i-th input record on
every field not named by a parsed aggregation spec; and (for distinct spec
result names) it carries, under each spec's result name, that spec's
aggregate of the records sharing the i-th record's group — overwriting any
same-named input field. -/
theorem execute_eventstats_amended (data : List Record) (args : String) :
    (execute_eventstats data args).length = data.length ∧
    (∀ (i : Nat) (k : String),
      k ∉ (parse_aggregations (splitStatsArgs args).1).map (fun s => s.1) →
      ((execute_eventstats data args)[i]?).map (fun r => Record.get r k) =
        (data[i]?).map (fun r => Record.get r k)) ∧
    (((parse_aggregations (splitStatsArgs args).1).map (fun s => s.1)).Nodup →
      ∀ (i : Nat) (r : Record), data[i]? = some r →
      ∀ s ∈ parse_aggregations (splitStatsArgs args).1,
        ((execute_eventstats data args)[i]?).map (fun rr => Record.get rr s.1) =
          some (some (applyAgg s.2.1 (groupMembers data args r) s.2.2))) := by
  have hmap := execute_eventstats_eq_map data args
  refine ⟨?_, ?_, ?_⟩
  · rw [hmap, List.length_map]
  · intro i k hk
    rw [hmap, List.getElem?_map]
    cases h : data[i]? with
    | none => rfl
    | some r =>
      simp only [Option.map_some']
      congr 1
      apply updateRecord_get_not_mem
      intro hmem
      exact hk (aggRow_keys_sub _ _ _ hmem)
  · intro hnd i r hir s hs
    rw [hmap, List.getElem?_map, hir]
    simp only [Option.map_some']
    congr 1
    rw [aggRow_eq_of_nodup _ _ hnd]
    apply updateRecord_get_mem_nodup
    · rw [List.map_map]
      simpa using hnd
    · exact List.mem_map.mpr ⟨s, hs, rfl⟩

/-- Witness for C4 at a concrete grouped eventstats call. -/
theorem execute_eventstats_amended_witness :
    (execute_eventstats [[("city", Value.str "NYC")], [("city", Value.str "LA")]]
      "count by city").length = 2 ∧
    ((execute_eventstats [[("city", Value.str "NYC")], [("city", Value.str "LA")]]
      "count by city")[0]?).map (fun r => Record.get r "city") =
      (([[("city", Value.str "NYC")], [("city", Value.str "LA")]] :
        List Record)[0]?).map (fun r => Record.get r "city") ∧
    ((execute_eventstats [[("city", Value.str "NYC")], [("city", Value.str "LA")]]
      "count by city")[0]?).map (fun rr => Record.get rr "count") =
      some (some (applyAgg AggFunc.count
        (groupMembers [[("city", Value.str "NYC")], [("city", Value.str "LA")]]
          "count by city" [("city", Value.str "NYC")]) none)) :=
  ⟨(execute_eventstats_amended [[("city", Value.str "NYC")], [("city", Value.str "LA")]]
      "count by city").1,
   (execute_eventstats_amended [[("city", Value.str "NYC")], [("city", Value.str "LA")]]
      "count by city").2.1 0 "city" (by decide),
   (execute_eventstats_amended [[("city", Value.str "NYC")], [("city", Value.str "LA")]]
      "count by city").2.2 (by decide) 0 [("city", Value.str "NYC")] rfl
      ("count", AggFunc.count, none) (by decide)⟩

end PySPL
